import Mathlib

/-!
Verification development for the React SuperGrid v3 coordination core.

The TypeScript sources are embedded shallowly:

* JavaScript `Map` objects become association lists that preserve insertion
  order (`mapSet` overwrites in place, `mapGet` reads the first binding,
  `mapDelete` removes the binding).
* The mutable registries (cells, rows, spaces, command handlers) become an
  explicit state record threaded through each embedded method.
* Handler and plugin callbacks are identified by opaque tokens; their
  observable behaviour (normal return, `false`, or a thrown error) is
  supplied as an explicit behaviour function, and dispatch returns the trace
  of callback invocations instead of performing side effects.
* `CellCordinator.ts` and `Registries.ts` are not part of the snapshot (only
  their interfaces and callers are); those operations are modelled from the
  spec, as flagged in their doc comments.
-/

deriving instance DecidableEq for Except

namespace SG

abbrev Id := String

/-- JavaScript `Map.set`: overwrite in place if the key is bound (keeping its
position in iteration order), otherwise append the new binding. -/
def mapSet {α : Type} (m : List (Id × α)) (k : Id) (v : α) : List (Id × α) :=
  match m with
  | [] => [(k, v)]
  | (k1, v1) :: rest => if k1 = k then (k, v) :: rest else (k1, v1) :: mapSet rest k v

/-- JavaScript `Map.get`: first binding of the key, if any. -/
def mapGet {α : Type} (m : List (Id × α)) (k : Id) : Option α :=
  match m with
  | [] => none
  | (k1, v1) :: rest => if k1 = k then some v1 else mapGet rest k

/-- JavaScript `Map.delete`: drop the binding of the key. -/
def mapDelete {α : Type} (m : List (Id × α)) (k : Id) : List (Id × α) :=
  match m with
  | [] => []
  | (k1, v1) :: rest => if k1 = k then rest else (k1, v1) :: mapDelete rest k

/-- Iteration order of the keys (`Map.keys()` / `list()`). -/
def mapKeys {α : Type} (m : List (Id × α)) : List Id := m.map Prod.fst

/-- Delete every key of a list in order (used for bulk cell cleanup). -/
def mapDeleteAll {α : Type} (m : List (Id × α)) (ks : List Id) : List (Id × α) :=
  ks.foldl mapDelete m

/-! ## Command bus (`CommandRegistry.ts`, snapshot part_005 and the
`SpaceCommandRegistry` appended to `PluginManager.ts`) -/

/-- Observable outcome of one plugin interception callback: returned exactly
`false`, returned anything else (`void`/`true`/other), or threw. -/
inductive HookRes where
  | retFalse
  | retOther
  | threw
deriving Repr, DecidableEq

/-- A cell command: `name`, optional `targetId` (keyboard commands have
none), optional `originPlugin`, optional `timestamp`, and an opaque error
payload slot used by the synthesized `error` command. -/
structure CellCmd where
  name : String
  targetId : Option Id
  originPlugin : Option String
  timestamp : Option Nat
  payloadError : Option Nat
deriving Repr, DecidableEq

/-- A plugin as seen by the bus: its `name` and the observable behaviour of
its `onBeforeCellCommand` callback. -/
structure PluginB where
  name : String
  onBeforeCellCommand : CellCmd → HookRes

/-- Embedding of `dispatch` step 1: `if (!command.timestamp)` assign the
current time.  JavaScript treats a `0` timestamp as unset (falsy). -/
def stampCell (now : Nat) (cmd : CellCmd) : CellCmd :=
  if cmd.timestamp.getD 0 = 0 then { cmd with timestamp := some now } else cmd

/-- Embedding of `CellCommandRegistry.runPluginChain` (part_005 lines
36-54), instrumented with the trace of plugin callbacks actually invoked.
A plugin whose name equals `command.originPlugin` is skipped; a callback
returning exactly `false` stops the chain with result `false`; a throwing
callback is logged and the chain continues. -/
def runPluginChain (plugins : List PluginB) (cmd : CellCmd) : Bool × List String :=
  match plugins with
  | [] => (true, [])
  | p :: rest =>
    if cmd.originPlugin = some p.name then runPluginChain rest cmd
    else
      match p.onBeforeCellCommand cmd with
      | .retFalse => (false, [p.name])
      | _ =>
        let r := runPluginChain rest cmd
        (r.1, p.name :: r.2)

/-- Behaviour of registered handlers: given the handler token and the
command, either return normally (`none`) or throw an error value
(`some e`). -/
abbrev HandlerBeh := Nat → CellCmd → Option Nat

/-- The synthesized cell `error` command (part_005 lines 65-71). -/
def mkCellError (targetId : Option Id) (e : Nat) (now : Nat) : CellCmd :=
  { name := "error", targetId := targetId, originPlugin := some "system",
    timestamp := some now, payloadError := some e }

/-- Embedding of `CellCommandRegistry.deliverToCell` (part_005 lines 56-81),
as the trace of handler invocations: look up the handler for `targetId`;
if it throws, log and deliver one synthesized `error` command to the same
handler directly (no plugin interception); a second throw is logged and
swallowed (no further invocation either way). -/
def deliverToCell (handlers : List (Id × Nat)) (beh : HandlerBeh) (now : Nat)
    (cmd : CellCmd) : List (Nat × CellCmd) :=
  match cmd.targetId.bind (mapGet handlers) with
  | none => []
  | some h =>
    match beh h cmd with
    | none => [(h, cmd)]
    | some e => [(h, cmd), (h, mkCellError cmd.targetId e now)]

/-- Result of one `dispatch` call: whether a plugin blocked it, the trace of
plugin callbacks that ran, and the trace of handler invocations. -/
structure DispatchRes where
  blocked : Bool
  pluginTrace : List String
  deliveries : List (Nat × CellCmd)
deriving Repr, DecidableEq

/-- Embedding of `CellCommandRegistry.dispatch` (part_005 lines 20-34):
stamp the timestamp, run the plugin chain, and deliver to the target cell
only when no plugin blocked. -/
def dispatchCell (plugins : List PluginB) (handlers : List (Id × Nat))
    (beh : HandlerBeh) (now : Nat) (cmd : CellCmd) : DispatchRes :=
  let scmd := stampCell now cmd
  let r := runPluginChain plugins scmd
  if r.1 then
    { blocked := false, pluginTrace := r.2, deliveries := deliverToCell handlers beh now scmd }
  else
    { blocked := true, pluginTrace := r.2, deliveries := [] }

/-- A row command (same observable shape as a cell command). -/
structure RowCmd where
  name : String
  targetId : Id
  originPlugin : Option String
  timestamp : Option Nat
  payloadError : Option Nat
deriving Repr, DecidableEq

abbrev RowHandlerBeh := Nat → RowCmd → Option Nat

/-- The synthesized row `error` command (part_005 lines 145-151). -/
def mkRowError (targetId : Id) (e : Nat) (now : Nat) : RowCmd :=
  { name := "error", targetId := targetId, originPlugin := some "system",
    timestamp := some now, payloadError := some e }

/-- Embedding of `RowCommandRegistry.deliverToRow` (part_005 lines 136-161):
identical recovery shape to the cell bus, including the synthesized `error`
command delivered directly to the handler. -/
def deliverToRow (handlers : List (Id × Nat)) (beh : RowHandlerBeh) (now : Nat)
    (cmd : RowCmd) : List (Nat × RowCmd) :=
  match mapGet handlers cmd.targetId with
  | none => []
  | some h =>
    match beh h cmd with
    | none => [(h, cmd)]
    | some e => [(h, cmd), (h, mkRowError cmd.targetId e now)]

/-- A space command (`targetSpaceId` field, per the `SpaceCommandRegistry`
appended to `PluginManager.ts`). -/
structure SpaceCmd where
  name : String
  targetSpaceId : Id
  originPlugin : Option String
  timestamp : Option Nat
deriving Repr, DecidableEq

abbrev SpaceHandlerBeh := Nat → SpaceCmd → Option Nat

/-- Embedding of `SpaceCommandRegistry.deliverToSpace` (appended to
`PluginManager.ts`, lines 172-184): a throwing handler is caught and logged
only; no error command is synthesized for the space kind. -/
def deliverToSpace (handlers : List (Id × Nat)) (beh : SpaceHandlerBeh)
    (cmd : SpaceCmd) : List (Nat × SpaceCmd) :=
  match mapGet handlers cmd.targetSpaceId with
  | none => []
  | some h =>
    match beh h cmd with
    | none => [(h, cmd)]
    | some _ => [(h, cmd)]

/-! ## Plugin dependency resolver (`PluginManager.ts`) -/

/-- A registered plugin as the resolver sees it: a name and the declared
dependency names. -/
structure PluginDecl where
  name : String
  dependencies : List String
deriving Repr, DecidableEq

/-- Iteration order of `plugins.keys()` (a JavaScript `Map` iterates in
insertion order). -/
def pluginNames (ps : List PluginDecl) : List String := ps.map (·.name)

/-- JavaScript `this.plugins.get(pluginName)`: first registered plugin with
that name (`addPlugin` rejects duplicate names, so at most one exists). -/
def lookupPlugin (ps : List PluginDecl) (n : String) : Option PluginDecl :=
  ps.find? (fun p => p.name = n)

/-- The resolver's mutable state: the `visiting` set (as the stack of names
currently on the DFS path), the `visited` set, and the produced `order`
array.  `visited` and `order` receive exactly the same pushes, so they stay
equal as lists. -/
structure ResolveSt where
  visiting : List String
  visited : List String
  order : List String
deriving Repr, DecidableEq

/-- The errors `resolveAndOrderPlugins` can throw, plus a fuel marker that
the sufficiency lemmas prove unreachable for the fuel used. -/
inductive ResolveErr where
  | circular (name : String)
  | missing (name : String)
  | fuelOut
deriving Repr, DecidableEq

/-- Embedding of the recursive `visit` of
`PluginManager.resolveAndOrderPlugins` (PluginManager.ts lines 64-88).  A
name still marked visiting is a circular-dependency error; an already
visited name is skipped; an unregistered name is a missing-dependency
error; otherwise the name is pushed on `visiting`, its dependencies are
visited left to right (stopping at the first error), and on success the
name leaves `visiting`, joins `visited` and is appended to `order`.  The
`fuel` parameter bounds the recursion depth; the JavaScript recursion
descends at most one level per registered plugin, and the fuel used by
`resolveAndOrderPlugins` is proved sufficient below. -/
def visit (ps : List PluginDecl) : Nat → String → ResolveSt →
    Except ResolveErr ResolveSt
  | 0, _, _ => .error .fuelOut
  | fuel+1, name, st =>
    if name ∈ st.visiting then .error (.circular name)
    else if name ∈ st.visited then .ok st
    else
      match lookupPlugin ps name with
      | none => .error (.missing name)
      | some p =>
        match p.dependencies.foldlM (fun acc d => visit ps fuel d acc)
            { st with visiting := name :: st.visiting } with
        | .error e => .error e
        | .ok st2 =>
          .ok { visiting := st2.visiting.erase name,
                visited := st2.visited ++ [name],
                order := st2.order ++ [name] }

/-- The top-level loop of `resolveAndOrderPlugins` (lines 90-95): visit
every not-yet-visited registered plugin name in registration order. -/
def resolveLoop (ps : List PluginDecl) (fuel : Nat) :
    List String → ResolveSt → Except ResolveErr ResolveSt
  | [], st => .ok st
  | n :: rest, st =>
    if n ∈ st.visited then resolveLoop ps fuel rest st
    else
      match visit ps fuel n st with
      | .error e => .error e
      | .ok st1 => resolveLoop ps fuel rest st1

/-- Embedding of `PluginManager.resolveAndOrderPlugins` (lines 59-98):
run the worklist over all registered names from the empty state and store
the resulting order. -/
def resolveAndOrderPlugins (ps : List PluginDecl) : Except ResolveErr (List String) :=
  match resolveLoop ps (ps.length + 1) (pluginNames ps) ⟨[], [], []⟩ with
  | .error e => .error e
  | .ok st => .ok st.order

/-- Dependency-closedness of a produced order: the plugin registered under
the name at position `i` has every declared dependency strictly earlier in
the order. -/
def DepsClosed (ps : List PluginDecl) (order : List String) : Prop :=
  ∀ i (h : i < order.length) (p : PluginDecl),
    lookupPlugin ps (order.get ⟨i, h⟩) = some p →
    ∀ d ∈ p.dependencies, d ∈ order.take i

/-- Invariant of the resolver state: `visited` and `order` receive identical
pushes (hence are the same list), the order has no duplicates and no member
still marked visiting, every ordered name is registered, and the order is
dependency-closed. -/
def StInv (ps : List PluginDecl) (st : ResolveSt) : Prop :=
  st.visited = st.order ∧ st.order.Nodup ∧
  (∀ m ∈ st.visited, m ∉ st.visiting) ∧
  (∀ m ∈ st.order, m ∈ pluginNames ps) ∧
  DepsClosed ps st.order

/-- Embedding of `PluginManager.initializePlugins` (lines 44-57): resolve
and order first (a thrown resolution error propagates before any lifecycle
hook runs), then run `onInit` for each plugin in the computed order (their
own errors are caught and logged).  The returned list is exactly the
sequence of plugins whose `onInit` is invoked; on a resolution error none
runs. -/
def initPlugins (ps : List PluginDecl) : Except ResolveErr (List String) :=
  match resolveAndOrderPlugins ps with
  | .error e => .error e
  | .ok order => .ok order

/-! ## Entity data model (`types.ts`) and TableCore spatial engine
(`TableCore.ts`) -/

/-- A row (`Row<T>` with the current `fractionalIndex` order key; the
payload `data` is carried opaquely as a number). -/
structure Row where
  spaceId : Id
  data : Nat
  cells : List Id
  top : Option Id
  bottom : Option Id
  fractionalIndex : String
deriving Repr, DecidableEq

/-- A cell with its four neighbour references. -/
structure Cell where
  rowId : Id
  top : Option Id
  bottom : Option Id
  left : Option Id
  right : Option Id
deriving Repr, DecidableEq

/-- A space segment (current shape per the Space System doc: `name`,
optional `owner`, chain links and the owned `rowIds`). -/
structure Space where
  name : String
  owner : Option String
  top : Option Id
  bottom : Option Id
  rowIds : List Id
deriving Repr, DecidableEq

/-- The shared mutable registries reached through `TableCore`: the cell and
row command-bus handler maps and the three entity registries.
`Registries.ts` itself is absent from the snapshot; per its interface
`RegistryI` and spec section 2 the registries are plain keyed stores with
no behaviour beyond CRUD, modelled by the `mapSet`/`mapGet`/`mapDelete`
association lists. -/
structure CoreState where
  cellHandlers : List (Id × Nat)
  rowHandlers : List (Id × Nat)
  cellReg : List (Id × Cell)
  rowReg : List (Id × Row)
  spaceReg : List (Id × Space)
deriving Repr, DecidableEq

/-- JavaScript string comparison (`<` / `localeCompare` on the ASCII digit
strings this code produces): lexicographic comparison of the code units. -/
def charsLt : List Char → List Char → Bool
  | [], [] => false
  | [], _ :: _ => true
  | _ :: _, [] => false
  | a :: as, b :: bs =>
    if a.toNat < b.toNat then true
    else if b.toNat < a.toNat then false
    else charsLt as bs

/-- Strict string order, JavaScript style. -/
def strLt (a b : String) : Bool := charsLt a.data b.data

/-- Numeric value of a decimal digit string. -/
def digitsVal (l : List Char) : Nat := l.foldl (fun n c => n * 10 + (c.toNat - 48)) 0

/-- JavaScript `parseInt`, returning `none` for `NaN`.  The strings this
code feeds it are decimal digit strings, on which `parseInt` is total. -/
def jsParseIntOpt (s : String) : Option Nat :=
  if !s.data.isEmpty && s.data.all (fun c => decide (48 ≤ c.toNat) && decide (c.toNat ≤ 57))
  then some (digitsVal s.data) else none

/-- JavaScript `parseInt` on the digit strings this code generates. -/
def jsParseInt (s : String) : Nat := (jsParseIntOpt s).getD 0

/-- JavaScript `String.padStart(5, '0')` (no-op on longer strings). -/
def padStart5 (s : String) : String :=
  String.mk (List.replicate (5 - s.length) '0') ++ s

/-- Render a number as its padded 5-digit key string. -/
def natKey (n : Nat) : String := padStart5 (toString n)

/-- Embedding of `TableCore.generateFractionalIndex` (TableCore.ts lines
471-507).  `belowIndex`/`aboveIndex` are the neighbour keys; `50000` seeds
an empty space; inserting below subtracts `10000` clamped at `1000`;
inserting above adds `10000`; between two keys the midpoint is used, or
`above + 1000` when no integer fits. -/
def generateFractionalIndex (belowIndex aboveIndex : Option String) : String :=
  match belowIndex, aboveIndex with
  | none, none => "50000"
  | none, some a => natKey (max (jsParseInt a - 10000) 1000)
  | some b, none => natKey (jsParseInt b + 10000)
  | some b, some a =>
    let below := jsParseInt b
    let above := jsParseInt a
    if above - below ≤ 1 then natKey (above + 1000)
    else natKey ((below + above) / 2)

/-- Stable insertion step: place `a` before the first element that does not
strictly precede it (`before x y` means `x` sorts strictly before `y`). -/
def insertSorted {α : Type} (before : α → α → Bool) (a : α) : List α → List α
  | [] => [a]
  | b :: bs => if before b a then b :: insertSorted before a bs else a :: b :: bs

/-- JavaScript `Array.sort` with a consistent comparator: the unique stable
sort of the list, modelled by stable insertion sort. -/
def stableSortBy {α : Type} (before : α → α → Bool) : List α → List α
  | [] => []
  | a :: as => insertSorted before a (stableSortBy before as)

/-- The sort comparator `(a, b) => b.fractionalIndex.localeCompare(a.fractionalIndex)`
as a strict precedence relation (descending key order; `localeCompare` on
these ASCII digit strings is plain lexicographic comparison): `a` sorts
strictly before `b` when its key is strictly larger. -/
def rowKeyDescBefore (a b : Id × Row) : Bool :=
  strLt b.2.fractionalIndex a.2.fractionalIndex

/-- Embedding of `TableCore.getAllRowsSortedByIndex` (lines 571-576): every
registry row, sorted descending by key.  Rows stay paired with their
registry ids, mirroring the one-to-one correspondence between the row
objects returned by `get` and their registry entries. -/
def getAllRowsSortedByIndex (s : CoreState) : List (Id × Row) :=
  stableSortBy rowKeyDescBefore s.rowReg

/-- The scan loop of `findVisualNeighbors` (lines 584-593): find the first
row (in the sorted order) whose key exceeds the new key, returning it with
the previously scanned row. -/
def findAboveLoop (fi : String) : List (Id × Row) → Option (Id × Row) →
    Option ((Id × Row) × Option (Id × Row))
  | [], _ => none
  | r :: rest, prev =>
    if strLt fi r.2.fractionalIndex then some (r, prev)
    else findAboveLoop fi rest (some r)

/-- Embedding of `TableCore.findVisualNeighbors` (lines 578-601): scan the
rows sorted descending; the first row with a larger key becomes `aboveRow`
and the row scanned just before it becomes `belowRow`; when no row has a
larger key, the last element of the sorted list becomes `belowRow`. -/
def findVisualNeighbors (s : CoreState) (fi : String) :
    Option (Id × Row) × Option (Id × Row) :=
  let allRows := getAllRowsSortedByIndex s
  match findAboveLoop fi allRows none with
  | some (above, below) => (some above, below)
  | none => (none, allRows.getLast?)

/-- Insertion position for `createRowInSpace`. -/
inductive InsertPos where
  | top
  | bottom
  | after (rowId : Id)
deriving Repr, DecidableEq

/-- The rows of one space sorted descending by key (lines 604-607). -/
def rowsInSpaceSorted (s : CoreState) (spaceId : Id) : List (Id × Row) :=
  stableSortBy rowKeyDescBefore (s.rowReg.filter (fun e => e.2.spaceId = spaceId))

/-- JavaScript `Array.findIndex` (`-1` when absent). -/
def jsIndexOfKey {α : Type} (l : List (Id × α)) (x : Id) : Int :=
  match l.findIdx? (fun e => e.1 = x) with
  | none => -1
  | some i => (i : Int)

/-- Embedding of `TableCore.calculateFractionalIndexForSpace` (lines
603-639): empty space seeds the initial key; `top` goes above the space's
highest row; `bottom` goes below its lowest; `after` reads the target row
and the row below it in the global order (falling back to the initial key
when the target row is missing). -/
def calculateFractionalIndexForSpace (s : CoreState) (spaceId : Id)
    (pos : InsertPos) : String :=
  let rowsInSpace := rowsInSpaceSorted s spaceId
  if rowsInSpace.isEmpty then generateFractionalIndex none none
  else
    match pos with
    | .top => generateFractionalIndex (rowsInSpace.head?.map (·.2.fractionalIndex)) none
    | .bottom => generateFractionalIndex none (rowsInSpace.getLast?.map (·.2.fractionalIndex))
    | .after targetRowId =>
      match mapGet s.rowReg targetRowId with
      | none => generateFractionalIndex none none
      | some targetRow =>
        let allRows := getAllRowsSortedByIndex s
        let targetIndex := jsIndexOfKey allRows targetRowId
        let belowRow :=
          if targetIndex < (allRows.length : Int) - 1 then
            allRows.get? (targetIndex + 1).toNat
          else none
        generateFractionalIndex (some targetRow.fractionalIndex)
          (belowRow.map (·.2.fractionalIndex))

/-- Store a row under its id (`rowRegistry.register`). -/
def registerRow (s : CoreState) (rid : Id) (r : Row) : CoreState :=
  { s with rowReg := mapSet s.rowReg rid r }

/-- Embedding of `TableCore.updateSpatialLinks` (lines 641-668): set the new
row's `top`/`bottom` from the neighbours found by `findVisualNeighbors`,
then point each found neighbour at the new row and the new row back at it.
The JavaScript resolves each neighbour object back to its registry id with
an identity search over `list()`; here the neighbour stays paired with its
own id, which is what that search yields. -/
def updateSpatialLinks (s : CoreState) (newRowId : Id) (newRow : Row) :
    CoreState × Row :=
  let nb := findVisualNeighbors s newRow.fractionalIndex
  let newRow := { newRow with top := nb.1.bind (·.2.top), bottom := nb.2.bind (·.2.bottom) }
  let step :=
    match nb.1 with
    | some above =>
      (registerRow s above.1 { above.2 with bottom := some newRowId },
       { newRow with top := some above.1 })
    | none => (s, newRow)
  match nb.2 with
  | some below =>
    (registerRow step.1 below.1 { below.2 with top := some newRowId },
     { step.2 with bottom := some below.1 })
  | none => step

/-- Embedding of `TableCore.createRowInSpace` (lines 537-568): compute the
new key for the requested position, create the row with empty cells and no
links, repair spatial links against the visual neighbours, and register the
new row.  The generated uuid is supplied as `newRowId`. -/
def createRowInSpace (s : CoreState) (newRowId : Id) (spaceId : Id)
    (rowData : Nat) (pos : InsertPos) : CoreState :=
  let fi := calculateFractionalIndexForSpace s spaceId pos
  let newRow : Row := { spaceId := spaceId, data := rowData, cells := [],
                        top := none, bottom := none, fractionalIndex := fi }
  let r := updateSpatialLinks s newRowId newRow
  registerRow r.1 newRowId r.2

/-- Modelled from the spec: `CellCordinator.ts` (class `CellCoordinator`) is
absent from the snapshot; only its interface `CellCoordinatorI` and its
callers are present.  Spec section 4.3: `linkVertical(topId, bottomId)` sets
both sides of the directional pair and never creates entities; following
the sibling `SpaceCoordinator.linkVertical` that is in the snapshot, the
operation is a no-op when either cell is missing. -/
def linkVertical (cellReg : List (Id × Cell)) (topId bottomId : Id) :
    List (Id × Cell) :=
  match mapGet cellReg topId, mapGet cellReg bottomId with
  | some topCell, some bottomCell =>
    mapSet (mapSet cellReg topId { topCell with bottom := some bottomId })
      bottomId { bottomCell with top := some topId }
  | _, _ => cellReg

/-- Modelled from the spec (section 4.3): `linkRowsCells(topCells,
bottomCells)` links cell `i` of the first array to cell `i` of the second
for every index; when the array lengths differ the operation degrades to a
logged no-op. -/
def linkRowsCells (cellReg : List (Id × Cell)) (topCells bottomCells : List Id) :
    List (Id × Cell) :=
  if topCells.length = bottomCells.length then
    (topCells.zip bottomCells).foldl (fun reg p => linkVertical reg p.1 p.2) cellReg
  else cellReg

/-- Modelled from the spec (section 4.3): `linkRows(topRowId, bottomRowId)`
links two rows directly at row granularity, setting both sides; no-op when
either row is missing (same guard pattern as `SpaceCoordinator.linkVertical`). -/
def linkRows (rowReg : List (Id × Row)) (topRowId bottomRowId : Id) :
    List (Id × Row) :=
  match mapGet rowReg topRowId, mapGet rowReg bottomRowId with
  | some topRow, some bottomRow =>
    mapSet (mapSet rowReg topRowId { topRow with bottom := some bottomRowId })
      bottomRowId { bottomRow with top := some topRowId }
  | _, _ => rowReg

/-- Embedding of `TableCore.destroyRow` (TableCore.ts lines 671-734).  A
missing row only logs a warning.  Otherwise: (1) every cell of the row is
unregistered from the cell bus and the cell registry; (2) with both
neighbours present they are linked directly at row and (via
`linkRowsCells`) cell granularity, with a single neighbour its dangling
reference is cleared; (3) the `destroy` row command is dispatched — the
registered row handler (`GridRow`) only flips component-local render state,
so this step has no registry effect; (4) the row is unregistered from the
row bus and the row registry. -/
def destroyRow (s : CoreState) (rowId : Id) : CoreState :=
  match mapGet s.rowReg rowId with
  | none => s
  | some row =>
    let s1 := row.cells.foldl
      (fun st cid => { st with cellHandlers := mapDelete st.cellHandlers cid,
                               cellReg := mapDelete st.cellReg cid }) s
    let s2 :=
      match row.top, row.bottom with
      | some topRowId, some bottomRowId =>
        let sl := { s1 with rowReg := linkRows s1.rowReg topRowId bottomRowId }
        match mapGet sl.rowReg topRowId, mapGet sl.rowReg bottomRowId with
        | some topRow, some bottomRow =>
          { sl with cellReg := linkRowsCells sl.cellReg topRow.cells bottomRow.cells }
        | _, _ => sl
      | some topRowId, none =>
        match mapGet s1.rowReg topRowId with
        | some topRow => registerRow s1 topRowId { topRow with bottom := none }
        | none => s1
      | none, some bottomRowId =>
        match mapGet s1.rowReg bottomRowId with
        | some bottomRow => registerRow s1 bottomRowId { bottomRow with top := none }
        | none => s1
      | none, none => s1
    { s2 with rowHandlers := mapDelete s2.rowHandlers rowId,
              rowReg := mapDelete s2.rowReg rowId }

/-- Embedding of `createRowAPI.addCellToRow` (TableCore.ts lines 187-199;
the `SuperGrid.tsx` context version at lines 112-120 is the same logic):
append the cell id to the row's `cells` array only when it is not already
present; a missing row only logs a warning. -/
def addCellToRow (s : CoreState) (rowId cellId : Id) : CoreState :=
  match mapGet s.rowReg rowId with
  | none => s
  | some row =>
    if cellId ∈ row.cells then s
    else registerRow s rowId { row with cells := row.cells ++ [cellId] }

/-- Decidable check of the bidirectional row-adjacency invariant: for every
registered row, a `bottom` reference to a registered row is mirrored by
that row's `top`, and symmetrically. -/
def rowPairOK (reg : List (Id × Row)) (e : Id × Row) : Bool :=
  (match e.2.bottom with
   | none => true
   | some bid =>
     match mapGet reg bid with
     | none => true
     | some b => b.top = some e.1) &&
  (match e.2.top with
   | none => true
   | some tid =>
     match mapGet reg tid with
     | none => true
     | some t => t.bottom = some e.1)

/-- The bidirectional adjacency invariant over the whole row registry. -/
def rowBidirOK (reg : List (Id × Row)) : Bool := reg.all (rowPairOK reg)

/-- The empty grid state. -/
def emptyState : CoreState := ⟨[], [], [], [], []⟩

/-! ## Order-key monotonicity runs (claim C5 apparatus) -/

/-- A `top`/`bottom` insertion position. -/
inductive TB where
  | top
  | bottom
deriving Repr, DecidableEq

/-- View a `TB` as an insertion position. -/
def tbPos : TB → InsertPos
  | .top => .top
  | .bottom => .bottom

/-- The monotonicity condition of one insertion: a `top` key must exceed
every key already in the segment, a `bottom` key must be below all of them
(comparison in the string order the engine sorts by). -/
def stepKeyOK (s : CoreState) (spaceId : Id) (tb : TB) (newKey : String) : Bool :=
  (rowsInSpaceSorted s spaceId).all (fun e =>
    match tb with
    | .top => strLt e.2.fractionalIndex newKey
    | .bottom => strLt newKey e.2.fractionalIndex)

/-- Run a sequence of insertions into the single space `"sp"` of an
initially empty grid, checking the monotonicity condition at each step. -/
def checkRunAux (s : CoreState) (n : Nat) : List TB → Bool
  | [] => true
  | tb :: rest =>
    let key := calculateFractionalIndexForSpace s "sp" (tbPos tb)
    stepKeyOK s "sp" tb key &&
      checkRunAux (createRowInSpace s ("r" ++ toString n) "sp" 0 (tbPos tb)) (n + 1) rest

/-- Monotonicity check of a whole insertion sequence from the empty state. -/
def checkRun (seq : List TB) : Bool := checkRunAux emptyState 0 seq

/-- All insertion sequences of one length. -/
def seqsOfLen : Nat → List (List TB)
  | 0 => [[]]
  | n+1 => (seqsOfLen n).flatMap (fun sq => [TB.top :: sq, TB.bottom :: sq])

/-- All insertion sequences of length at most `n`. -/
def seqsUpTo (n : Nat) : List (List TB) :=
  (List.range (n + 1)).flatMap seqsOfLen

/-- The grid state after inserting three rows `"a"`, `"b"`, `"c"` at
`bottom` into the single space `"sp"` of an empty grid. -/
def threeBottomInserts : CoreState :=
  createRowInSpace
    (createRowInSpace
      (createRowInSpace emptyState "a" "sp" 0 .bottom) "b" "sp" 0 .bottom)
    "c" "sp" 0 .bottom

/-! ## String position generator (`utils.ts`, appended to the CONTEXT.md
snapshot) and the Space component (`components/Space.tsx`, first version in
the snapshot) -/

/-- JavaScript `String.padStart(2, '0')`. -/
def padStart2 (s : String) : String :=
  String.mk (List.replicate (2 - s.length) '0') ++ s

/-- Embedding of `StringPositionGenerator.generateHigherString` (utils
lines 371-377).  The row strings fed to it are decimal digit strings, for
which `parseInt` is total; the `NaN` fallback is kept for fidelity. -/
def generateHigherString (existing : String) : String :=
  match jsParseIntOpt existing with
  | none => existing ++ "1"
  | some num => toString (num + 10)

/-- Embedding of `StringPositionGenerator.generateLowerString` (utils lines
380-392). -/
def generateLowerString (existing : String) : String :=
  match jsParseIntOpt existing with
  | none => "0" ++ existing
  | some num =>
    if num ≤ 10 then padStart2 (toString (max 1 (num - 5)))
    else toString (num - 10)

/-- Embedding of `StringPositionGenerator.generateBetweenStrings` (utils
lines 395-412). -/
def generateBetweenStrings (higher lower : String) : String :=
  match jsParseIntOpt higher, jsParseIntOpt lower with
  | some higherNum, some lowerNum =>
    if higherNum - lowerNum > 1 then toString ((higherNum + lowerNum) / 2)
    else lower ++ "5"
  | _, _ => lower ++ "5"

/-- Embedding of `StringPositionGenerator.generatePositionString` (utils
lines 415-429): the first row of an empty segment gets `"20"`; otherwise
sort the existing strings (JavaScript default sort: lexicographic
ascending) and go above the highest or below the lowest. -/
def generatePositionString (existingRowStrings : List String) (pos : TB) : String :=
  match existingRowStrings with
  | [] => "20"
  | _ =>
    let sorted := stableSortBy strLt existingRowStrings
    match pos with
    | .top => generateHigherString (sorted.getLast?.getD "")
    | .bottom => generateLowerString (sorted.head?.getD "")

/-- A row as this Space component iteration stores it (`rowString` order
key instead of `fractionalIndex`). -/
structure SRow where
  spaceId : Id
  data : Nat
  cells : List Id
  top : Option Id
  bottom : Option Id
  rowString : String
deriving Repr, DecidableEq

/-- The registries this component reads and writes through `tableCore`. -/
structure SState where
  rowReg : List (Id × SRow)
  spaceReg : List (Id × Space)
  cellReg : List (Id × Cell)
deriving Repr, DecidableEq

/-- Embedding of `getRowString` (Space.tsx lines 16-19): the row's string,
with `"20"` as the fallback for a missing row (row strings are non-empty,
so the falsy-string branch of `||` cannot fire). -/
def getRowString (s : SState) (rowId : Id) : String :=
  match mapGet s.rowReg rowId with
  | some row => row.rowString
  | none => "20"

/-- Embedding of `Space.handleAddRow` (Space.tsx lines 52-104).  `rowIds`
is the component's state in the render that handles the command; the result
pairs the updated registries with the new `rowIds` array passed to
`setRowIds`.  The `setTimeout` scheduled at the end of `handleAddRow`
invokes `handleCrossSpaceLinking` from this same render closure, so that
deferred call observes this pre-insertion `rowIds` value, not the updated
one. -/
def handleAddRow (s : SState) (spaceId : Id) (rowIds : List Id) (newRowId : Id)
    (rowData : Nat) (pos : TB) : SState × List Id :=
  match mapGet s.spaceReg spaceId with
  | none => (s, rowIds)
  | some currentSpace =>
    let existingRowStrings := rowIds.map (getRowString s)
    let rowString := generatePositionString existingRowStrings pos
    let insertIndex := match pos with | .top => 0 | .bottom => rowIds.length
    let newRow : SRow := { spaceId := spaceId, data := rowData, cells := [],
                           top := none, bottom := none, rowString := rowString }
    let s1 := { s with rowReg := mapSet s.rowReg newRowId newRow }
    let newRowIds := rowIds.take insertIndex ++ newRowId :: rowIds.drop insertIndex
    let newSpaceReg := mapSet s1.spaceReg spaceId { currentSpace with rowIds := newRowIds }
    ({ s1 with spaceReg := newSpaceReg }, newRowIds)

/-- Chain walk direction. -/
inductive Dir where
  | above
  | below
deriving Repr, DecidableEq

/-- The `while` loop of `findNearestSpaceWithRows` (Space.tsx lines
149-158).  The walk is fuel-bounded by the number of registered spaces,
which covers every chain without cycles (the only chains the system
builds). -/
def findNearestLoop (s : SState) (dir : Dir) : Nat → Option Id → Option Id
  | _, none => none
  | 0, some _ => none
  | fuel+1, some searchSpaceId =>
    match mapGet s.spaceReg searchSpaceId with
    | none => none
    | some searchSpace =>
      if searchSpace.rowIds.length > 0 then some searchSpaceId
      else findNearestLoop s dir fuel
        (match dir with | .above => searchSpace.top | .below => searchSpace.bottom)

/-- Embedding of `findNearestSpaceWithRows` (Space.tsx lines 142-161): walk
the space chain `top`-ward or `bottom`-ward from the current space until a
space with at least one row is found. -/
def findNearestSpaceWithRows (s : SState) (spaceId : Id) (dir : Dir) : Option Id :=
  match mapGet s.spaceReg spaceId with
  | none => none
  | some currentSpace =>
    findNearestLoop s dir s.spaceReg.length
      (match dir with | .above => currentSpace.top | .below => currentSpace.bottom)

/-- Embedding of `linkToSpaceAbove` (Space.tsx lines 164-184): link the
bottom-most row of the space above to the new row, cell array to cell
array, provided both rows exist and have cells. -/
def linkToSpaceAbove (s : SState) (newRowId : Id) (spaceAboveId : Option Id) :
    SState :=
  match spaceAboveId with
  | none => s
  | some aid =>
    match mapGet s.spaceReg aid with
    | none => s
    | some spaceAbove =>
      match spaceAbove.rowIds.getLast? with
      | none => s
      | some aboveBottomRowId =>
        match mapGet s.rowReg aboveBottomRowId, mapGet s.rowReg newRowId with
        | some aboveBottomRow, some newRow =>
          if aboveBottomRow.cells.length > 0 ∧ newRow.cells.length > 0 then
            { s with cellReg := linkRowsCells s.cellReg aboveBottomRow.cells newRow.cells }
          else s
        | _, _ => s

/-- Embedding of `linkToSpaceBelow` (Space.tsx lines 187-207): link the new
row to the top-most row of the space below, cell array to cell array. -/
def linkToSpaceBelow (s : SState) (newRowId : Id) (spaceBelowId : Option Id) :
    SState :=
  match spaceBelowId with
  | none => s
  | some bid =>
    match mapGet s.spaceReg bid with
    | none => s
    | some spaceBelow =>
      match spaceBelow.rowIds.head? with
      | none => s
      | some belowTopRowId =>
        match mapGet s.rowReg newRowId, mapGet s.rowReg belowTopRowId with
        | some newRow, some belowTopRow =>
          if newRow.cells.length > 0 ∧ belowTopRow.cells.length > 0 then
            { s with cellReg := linkRowsCells s.cellReg newRow.cells belowTopRow.cells }
          else s
        | _, _ => s

/-- JavaScript `Array.indexOf` (`-1` when absent). -/
def jsIndexOf (l : List Id) (x : Id) : Int :=
  match l.indexOf? x with
  | none => -1
  | some i => (i : Int)

/-- Embedding of `linkInternallyAndCrossSpace` (Space.tsx lines 210-243):
link the new row to its in-space neighbour on the insertion side, then link
across the segment boundary on that side only. -/
def linkInternallyAndCrossSpace (s : SState) (rowIds : List Id) (newRowId : Id)
    (pos : TB) (spaceAbove spaceBelow : Option Id) : SState :=
  let newRowIndex := jsIndexOf rowIds newRowId
  match pos with
  | .top =>
    let s1 :=
      if newRowIndex + 1 < (rowIds.length : Int) then
        match rowIds.get? (newRowIndex + 1).toNat with
        | none => s
        | some nextRowId =>
          match mapGet s.rowReg nextRowId, mapGet s.rowReg newRowId with
          | some nextRow, some newRow =>
            if newRow.cells.length > 0 ∧ nextRow.cells.length > 0 then
              { s with cellReg := linkRowsCells s.cellReg newRow.cells nextRow.cells }
            else s
          | _, _ => s
      else s
    linkToSpaceAbove s1 newRowId spaceAbove
  | .bottom =>
    let s1 :=
      if 0 < newRowIndex then
        match rowIds.get? (newRowIndex - 1).toNat with
        | none => s
        | some prevRowId =>
          match mapGet s.rowReg prevRowId, mapGet s.rowReg newRowId with
          | some prevRow, some newRow =>
            if prevRow.cells.length > 0 ∧ newRow.cells.length > 0 then
              { s with cellReg := linkRowsCells s.cellReg prevRow.cells newRow.cells }
            else s
          | _, _ => s
      else s
    linkToSpaceBelow s1 newRowId spaceBelow

/-- Embedding of `handleCrossSpaceLinking` (Space.tsx lines 108-139),
invoked by the timeout scheduled in `handleAddRow`.  `rowIds` is the value
captured by that closure (the pre-insertion component state).  A row whose
cells are not yet populated is skipped; otherwise the nearest populated
spaces above and below are found and, depending on the captured `rowIds`
and position, the row is linked internally and across segment
boundaries. -/
def handleCrossSpaceLinking (s : SState) (spaceId : Id) (rowIds : List Id)
    (newRowId : Id) (pos : TB) : SState :=
  match mapGet s.rowReg newRowId with
  | none => s
  | some newRow =>
    if newRow.cells.length = 0 then s
    else
      let spaceAbove := findNearestSpaceWithRows s spaceId .above
      let spaceBelow := findNearestSpaceWithRows s spaceId .below
      if pos = .top ∧ rowIds.length = 1 then
        linkToSpaceBelow (linkToSpaceAbove s newRowId spaceAbove) newRowId spaceBelow
      else if pos = .bottom ∧ rowIds.length = 1 then
        linkToSpaceBelow (linkToSpaceAbove s newRowId spaceAbove) newRowId spaceBelow
      else
        linkInternallyAndCrossSpace s rowIds newRowId pos spaceAbove spaceBelow

/-- The cell-population step the rendering collaborator performs once the
new row mounts: register the cell object (`registerCell`) and append its id
to the row's `cells` array (`addCellToRow`, same logic as the TableCore
version). -/
def populateCell (s : SState) (rowId cellId : Id) (c : Cell) : SState :=
  let s1 := { s with cellReg := mapSet s.cellReg cellId c }
  match mapGet s1.rowReg rowId with
  | none => s1
  | some row =>
    if cellId ∈ row.cells then s1
    else { s1 with rowReg := mapSet s1.rowReg rowId { row with cells := row.cells ++ [cellId] } }

/-! ## Concrete scenarios -/

/-- The cross-segment scenario of spec section 8: segment chain
`D (rows) → C (empty) → B (empty) → A (empty) → T (table, rows)`,
with `D`'s only row owning cells `dc0, dc1` and `T`'s only row owning
`tc0, tc1`. -/
def c3State : SState :=
  { rowReg :=
      [("d1", { spaceId := "D", data := 0, cells := ["dc0", "dc1"],
                top := none, bottom := none, rowString := "20" }),
       ("t1", { spaceId := "T", data := 0, cells := ["tc0", "tc1"],
                top := none, bottom := none, rowString := "20" })],
    spaceReg :=
      [("D", { name := "D", owner := none, top := none, bottom := some "C", rowIds := ["d1"] }),
       ("C", { name := "C", owner := none, top := some "D", bottom := some "B", rowIds := [] }),
       ("B", { name := "B", owner := none, top := some "C", bottom := some "A", rowIds := [] }),
       ("A", { name := "A", owner := none, top := some "B", bottom := some "T", rowIds := [] }),
       ("T", { name := "T", owner := none, top := some "A", bottom := none, rowIds := ["t1"] })],
    cellReg :=
      [("dc0", { rowId := "d1", top := none, bottom := none, left := none, right := some "dc1" }),
       ("dc1", { rowId := "d1", top := none, bottom := none, left := some "dc0", right := none }),
       ("tc0", { rowId := "t1", top := none, bottom := none, left := none, right := some "tc1" }),
       ("tc1", { rowId := "t1", top := none, bottom := none, left := some "tc0", right := none })] }

/-- Insert row `"n"` into the empty segment `B` at `bottom`: `handleAddRow`
runs with the component's `rowIds = []`, then the rendering collaborator
populates the new row's cells `nc0, nc1`, and finally the deferred
`handleCrossSpaceLinking` fires with the closure-captured pre-insertion
`rowIds = []`. -/
def c3Final : SState :=
  let afterAdd := handleAddRow c3State "B" [] "n" 0 .bottom
  let populated := populateCell
    (populateCell afterAdd.1 "n" "nc0"
      { rowId := "n", top := none, bottom := none, left := none, right := some "nc1" })
    "n" "nc1"
    { rowId := "n", top := none, bottom := none, left := some "nc0", right := none }
  handleCrossSpaceLinking populated "B" [] "n" .bottom

/-- A three-row chain `t` above `m` above `b` in space `"sp"`, every row
with two cells, cells linked vertically, every cell and row registered on
its bus.  Used to exercise `destroyRow` on the middle row. -/
def c4State : CoreState :=
  { cellHandlers := [("t0", 1), ("t1", 2), ("m0", 3), ("m1", 4), ("b0", 5), ("b1", 6)],
    rowHandlers := [("t", 11), ("m", 12), ("b", 13)],
    cellReg :=
      [("t0", { rowId := "t", top := none, bottom := some "m0", left := none, right := some "t1" }),
       ("t1", { rowId := "t", top := none, bottom := some "m1", left := some "t0", right := none }),
       ("m0", { rowId := "m", top := some "t0", bottom := some "b0", left := none, right := some "m1" }),
       ("m1", { rowId := "m", top := some "t1", bottom := some "b1", left := some "m0", right := none }),
       ("b0", { rowId := "b", top := some "m0", bottom := none, left := none, right := some "b1" }),
       ("b1", { rowId := "b", top := some "m1", bottom := none, left := some "b0", right := none })],
    rowReg :=
      [("t", { spaceId := "sp", data := 0, cells := ["t0", "t1"],
               top := none, bottom := some "m", fractionalIndex := "50000" }),
       ("m", { spaceId := "sp", data := 0, cells := ["m0", "m1"],
               top := some "t", bottom := some "b", fractionalIndex := "40000" }),
       ("b", { spaceId := "sp", data := 0, cells := ["b0", "b1"],
               top := some "m", bottom := none, fractionalIndex := "30000" })],
    spaceReg :=
      [("sp", { name := "sp", owner := none, top := none, bottom := none,
                rowIds := ["t", "m", "b"] })] }

/-- The grid state after five consecutive `top` insertions into the single
space `"sp"` of an empty grid (keys `50000` through `90000`). -/
def fiveTopInserts : CoreState :=
  (List.range 5).foldl
    (fun s n => createRowInSpace s ("r" ++ toString n) "sp" 0 .top) emptyState

/-! # Lemmas about the map model -/

theorem mapGet_set_self {α : Type} (m : List (Id × α)) (k : Id) (v : α) :
    mapGet (mapSet m k v) k = some v := by
  induction m with
  | nil => simp [mapSet, mapGet]
  | cons e rest ih =>
    obtain ⟨k1, v1⟩ := e
    by_cases h : k1 = k
    · simp [mapSet, h, mapGet]
    · simp [mapSet, h, mapGet, ih]

theorem mapGet_set_ne {α : Type} (m : List (Id × α)) (k k2 : Id) (v : α)
    (hne : k2 ≠ k) : mapGet (mapSet m k v) k2 = mapGet m k2 := by
  have hks : ¬ k = k2 := fun h => hne h.symm
  induction m with
  | nil => simp [mapSet, mapGet, hks]
  | cons e rest ih =>
    obtain ⟨k1, v1⟩ := e
    by_cases h : k1 = k
    · subst h
      simp [mapSet, mapGet, hks]
    · simp [mapSet, h, mapGet, ih]

theorem mapKeys_cons {α : Type} (k1 : Id) (v1 : α) (rest : List (Id × α)) :
    mapKeys ((k1, v1) :: rest) = k1 :: mapKeys rest := rfl

theorem mapGet_eq_none_of_not_mem {α : Type} (m : List (Id × α)) (k : Id)
    (h : k ∉ mapKeys m) : mapGet m k = none := by
  induction m with
  | nil => rfl
  | cons e rest ih =>
    obtain ⟨k1, v1⟩ := e
    rw [mapKeys_cons] at h
    have h1 : ¬ k1 = k := fun hh => h (hh ▸ List.mem_cons_self k1 (mapKeys rest))
    have h2 : k ∉ mapKeys rest := fun hh => h (List.mem_cons_of_mem k1 hh)
    simp [mapGet, h1, ih h2]

theorem mem_keys_of_mapGet_some {α : Type} (m : List (Id × α)) (k : Id) (v : α)
    (h : mapGet m k = some v) : k ∈ mapKeys m := by
  by_contra hmem
  rw [mapGet_eq_none_of_not_mem m k hmem] at h
  exact Option.noConfusion h

theorem mapGet_some_mem {α : Type} (m : List (Id × α)) (k : Id) (v : α)
    (h : mapGet m k = some v) : (k, v) ∈ m := by
  induction m with
  | nil => exact absurd h (by simp [mapGet])
  | cons e rest ih =>
    obtain ⟨k1, v1⟩ := e
    by_cases h1 : k1 = k
    · rw [mapGet, if_pos h1] at h
      cases h
      exact h1 ▸ List.mem_cons_self _ _
    · rw [mapGet, if_neg h1] at h
      exact List.mem_cons_of_mem _ (ih h)

theorem mapGet_delete_ne {α : Type} (m : List (Id × α)) (k k2 : Id)
    (hne : k2 ≠ k) : mapGet (mapDelete m k) k2 = mapGet m k2 := by
  induction m with
  | nil => rfl
  | cons e rest ih =>
    obtain ⟨k1, v1⟩ := e
    by_cases h : k1 = k
    · have h2 : ¬ k1 = k2 := fun hh => hne ((hh.symm).trans h)
      have h3 : ¬ k = k2 := fun hh => hne hh.symm
      simp [mapDelete, h, mapGet, h2, h3]
    · simp [mapDelete, h, mapGet, ih]

theorem mapGet_delete_self {α : Type} (m : List (Id × α)) (k : Id)
    (hnd : (mapKeys m).Nodup) : mapGet (mapDelete m k) k = none := by
  induction m with
  | nil => rfl
  | cons e rest ih =>
    obtain ⟨k1, v1⟩ := e
    rw [mapKeys_cons, List.nodup_cons] at hnd
    by_cases h : k1 = k
    · rw [mapDelete, if_pos h]
      exact mapGet_eq_none_of_not_mem rest k (h ▸ hnd.1)
    · simp [mapDelete, h, mapGet, ih hnd.2]

theorem mapGet_none_delete {α : Type} (m : List (Id × α)) (k c : Id)
    (h : mapGet m c = none) : mapGet (mapDelete m k) c = none := by
  induction m with
  | nil => rfl
  | cons e rest ih =>
    obtain ⟨k1, v1⟩ := e
    by_cases h1 : k1 = c
    · simp [mapGet, h1] at h
    · simp only [mapGet, if_neg h1] at h
      by_cases h2 : k1 = k
      · simpa [mapDelete, h2] using h
      · simp [mapDelete, h2, mapGet, h1, ih h]

theorem mapKeys_delete_sublist {α : Type} (m : List (Id × α)) (k : Id) :
    (mapKeys (mapDelete m k)).Sublist (mapKeys m) := by
  induction m with
  | nil => simp [mapDelete]
  | cons e rest ih =>
    obtain ⟨k1, v1⟩ := e
    by_cases h : k1 = k
    · simp only [mapDelete, if_pos h, mapKeys, List.map_cons]
      exact (List.sublist_cons_self k1 (rest.map Prod.fst)).trans (List.Sublist.refl _)
    · simpa [mapDelete, h, mapKeys] using ih

theorem mapKeys_delete_nodup {α : Type} (m : List (Id × α)) (k : Id)
    (hnd : (mapKeys m).Nodup) : (mapKeys (mapDelete m k)).Nodup :=
  hnd.sublist (mapKeys_delete_sublist m k)

theorem mapKeys_set_of_mem {α : Type} (m : List (Id × α)) (k : Id) (v : α)
    (h : k ∈ mapKeys m) : mapKeys (mapSet m k v) = mapKeys m := by
  induction m with
  | nil => simp [mapKeys] at h
  | cons e rest ih =>
    obtain ⟨k1, v1⟩ := e
    rw [mapKeys_cons] at h
    by_cases h1 : k1 = k
    · simp [mapSet, h1, mapKeys_cons]
    · have h2 : k ∈ mapKeys rest := by
        rcases List.mem_cons.mp h with h3 | h3
        · exact absurd h3.symm h1
        · exact h3
      rw [mapSet, if_neg h1, mapKeys_cons, mapKeys_cons, ih h2]

theorem mapKeys_set_of_not_mem {α : Type} (m : List (Id × α)) (k : Id) (v : α)
    (h : k ∉ mapKeys m) : mapKeys (mapSet m k v) = mapKeys m ++ [k] := by
  induction m with
  | nil => simp [mapSet, mapKeys]
  | cons e rest ih =>
    obtain ⟨k1, v1⟩ := e
    rw [mapKeys_cons] at h
    have h1 : ¬ k1 = k := fun hh => h (hh ▸ List.mem_cons_self k1 (mapKeys rest))
    have h2 : k ∉ mapKeys rest := fun hh => h (List.mem_cons_of_mem k1 hh)
    rw [mapSet, if_neg h1, mapKeys_cons, mapKeys_cons, ih h2, List.cons_append]

theorem mapKeys_set_nodup {α : Type} (m : List (Id × α)) (k : Id) (v : α)
    (hnd : (mapKeys m).Nodup) : (mapKeys (mapSet m k v)).Nodup := by
  by_cases h : k ∈ mapKeys m
  · rw [mapKeys_set_of_mem m k v h]; exact hnd
  · rw [mapKeys_set_of_not_mem m k v h]
    simpa [List.nodup_append] using ⟨hnd, fun hh => h hh⟩

theorem mapGet_deleteAll_not_mem {α : Type} (ks : List Id) (m : List (Id × α))
    (c : Id) (h : c ∉ ks) : mapGet (mapDeleteAll m ks) c = mapGet m c := by
  induction ks generalizing m with
  | nil => rfl
  | cons a ks ih =>
    simp only [List.mem_cons] at h
    push_neg at h
    have step : mapDeleteAll m (a :: ks) = mapDeleteAll (mapDelete m a) ks := by
      simp [mapDeleteAll]
    rw [step, ih (mapDelete m a) h.2, mapGet_delete_ne m a c h.1]

theorem mapGet_none_deleteAll {α : Type} (ks : List Id) (m : List (Id × α))
    (c : Id) (h : mapGet m c = none) : mapGet (mapDeleteAll m ks) c = none := by
  induction ks generalizing m with
  | nil => exact h
  | cons a ks ih =>
    have step : mapDeleteAll m (a :: ks) = mapDeleteAll (mapDelete m a) ks := by
      simp [mapDeleteAll]
    rw [step]
    exact ih (mapDelete m a) (mapGet_none_delete m a c h)

theorem mapKeys_deleteAll_nodup {α : Type} (ks : List Id) (m : List (Id × α))
    (hnd : (mapKeys m).Nodup) : (mapKeys (mapDeleteAll m ks)).Nodup := by
  induction ks generalizing m with
  | nil => exact hnd
  | cons a ks ih =>
    have step : mapDeleteAll m (a :: ks) = mapDeleteAll (mapDelete m a) ks := by
      simp [mapDeleteAll]
    rw [step]
    exact ih (mapDelete m a) (mapKeys_delete_nodup m a hnd)

theorem mapGet_deleteAll_mem {α : Type} (ks : List Id) (m : List (Id × α))
    (c : Id) (hnd : (mapKeys m).Nodup) (h : c ∈ ks) :
    mapGet (mapDeleteAll m ks) c = none := by
  induction ks generalizing m with
  | nil => simp at h
  | cons a ks ih =>
    have step : mapDeleteAll m (a :: ks) = mapDeleteAll (mapDelete m a) ks := by
      simp [mapDeleteAll]
    rw [step]
    rcases List.mem_cons.mp h with h1 | h1
    · subst h1
      exact mapGet_none_deleteAll ks (mapDelete m c) c (mapGet_delete_self m c hnd)
    · exact ih (mapDelete m a) (mapKeys_delete_nodup m a hnd) h1

/-! # Lemmas about the command bus -/

theorem stampCell_targetId (now : Nat) (cmd : CellCmd) :
    (stampCell now cmd).targetId = cmd.targetId := by
  unfold stampCell
  split <;> rfl

theorem stampCell_originPlugin (now : Nat) (cmd : CellCmd) :
    (stampCell now cmd).originPlugin = cmd.originPlugin := by
  unfold stampCell
  split <;> rfl

theorem runPluginChain_eq_of_no_block (cmd : CellCmd) :
    ∀ plugins : List PluginB,
      (∀ p ∈ plugins.filter (fun p => decide (¬ cmd.originPlugin = some p.name)),
         p.onBeforeCellCommand cmd ≠ .retFalse) →
      runPluginChain plugins cmd =
        (true,
         (plugins.filter (fun p => decide (¬ cmd.originPlugin = some p.name))).map
           (fun p => p.name)) := by
  intro plugins
  induction plugins with
  | nil => intro _; rfl
  | cons p rest ih =>
    intro h
    by_cases hskip : cmd.originPlugin = some p.name
    · have hf : (decide (¬ cmd.originPlugin = some p.name)) = false := by
        simp [hskip]
      rw [List.filter_cons, hf] at h
      simp only [Bool.false_eq_true, if_false] at h
      rw [runPluginChain, if_pos hskip, ih h, List.filter_cons, hf]
      simp
    · have ht : (decide (¬ cmd.originPlugin = some p.name)) = true := by
        simp [hskip]
      have hmem : p ∈ (p :: rest).filter (fun p => decide (¬ cmd.originPlugin = some p.name)) := by
        rw [List.filter_cons, ht]
        simp
      have hp := h p hmem
      have hrest : ∀ q ∈ rest.filter (fun p => decide (¬ cmd.originPlugin = some p.name)),
          q.onBeforeCellCommand cmd ≠ .retFalse := by
        intro q hq
        refine h q ?_
        rw [List.filter_cons, ht]
        simp only [if_true]
        exact List.mem_cons_of_mem _ hq
      rw [runPluginChain, if_neg hskip]
      cases hres : p.onBeforeCellCommand cmd with
      | retFalse => exact absurd hres hp
      | retOther =>
        rw [List.filter_cons, ht]
        simp only [if_true, List.map_cons]
        rw [ih hrest]
      | threw =>
        rw [List.filter_cons, ht]
        simp only [if_true, List.map_cons]
        rw [ih hrest]

theorem runPluginChain_eq_of_block (cmd : CellCmd) :
    ∀ (plugins l1 l2 : List PluginB) (p : PluginB),
      plugins.filter (fun q => decide (¬ cmd.originPlugin = some q.name)) = l1 ++ p :: l2 →
      (∀ q ∈ l1, q.onBeforeCellCommand cmd ≠ .retFalse) →
      p.onBeforeCellCommand cmd = .retFalse →
      runPluginChain plugins cmd = (false, l1.map (fun q => q.name) ++ [p.name]) := by
  intro plugins
  induction plugins with
  | nil =>
    intro l1 l2 p he _ _
    exact absurd he.symm (List.append_ne_nil_of_right_ne_nil l1 (List.cons_ne_nil p l2))
  | cons q rest ih =>
    intro l1 l2 p he h1 hp
    by_cases hskip : cmd.originPlugin = some q.name
    · have hf : (decide (¬ cmd.originPlugin = some q.name)) = false := by
        simp [hskip]
      rw [List.filter_cons, hf] at he
      simp only [Bool.false_eq_true, if_false] at he
      rw [runPluginChain, if_pos hskip]
      exact ih l1 l2 p he h1 hp
    · have ht : (decide (¬ cmd.originPlugin = some q.name)) = true := by
        simp [hskip]
      rw [List.filter_cons, ht] at he
      simp only [if_true] at he
      rw [runPluginChain, if_neg hskip]
      cases l1 with
      | nil =>
        simp only [List.nil_append] at he
        have hqp : q = p := (List.cons_eq_cons.mp he).1
        rw [hqp, hp]
        simp
      | cons a l1 =>
        rw [List.cons_append] at he
        obtain ⟨haq, he2⟩ := List.cons_eq_cons.mp he
        have hq : q.onBeforeCellCommand cmd ≠ .retFalse := by
          rw [haq]
          exact h1 a (List.mem_cons_self a l1)
        have h1rest : ∀ r ∈ l1, r.onBeforeCellCommand cmd ≠ .retFalse :=
          fun r hr => h1 r (List.mem_cons_of_mem a hr)
        cases hres : q.onBeforeCellCommand cmd with
        | retFalse => exact absurd hres hq
        | retOther =>
          rw [ih l1 l2 p he2 h1rest hp]
          simp [haq]
        | threw =>
          rw [ih l1 l2 p he2 h1rest hp]
          simp [haq]

theorem deliverToCell_no_handler (handlers : List (Id × Nat)) (beh : HandlerBeh)
    (now : Nat) (cmd : CellCmd) (k : Id) (ht : cmd.targetId = some k)
    (hh : mapGet handlers k = none) : deliverToCell handlers beh now cmd = [] := by
  unfold deliverToCell
  rw [ht]
  simp [hh]

/-! # Claim C2 -/

/-- C2: for every dispatched cell command, the interception callbacks run in
the configured plugin order, skipping exactly the plugins whose name equals
the command's `originPlugin`.  If no eligible callback returns exactly
`false` (throwing callbacks are logged and the chain continues), every
eligible plugin's callback runs in order and the command is delivered to
the registered target handler.  If some eligible callback returns exactly
`false`, the chain stops at the first such plugin — the callbacks invoked
are exactly the eligible ones up to and including it — and no handler
invocation happens.  The third conjunct records that when a handler is
registered for the target, delivery does invoke it with the command. -/
theorem c2_interception_chain :
    (∀ (plugins : List PluginB) (handlers : List (Id × Nat)) (beh : HandlerBeh)
       (now : Nat) (cmd : CellCmd),
       (∀ p ∈ plugins.filter (fun p => decide (¬ cmd.originPlugin = some p.name)),
          p.onBeforeCellCommand (stampCell now cmd) ≠ .retFalse) →
       dispatchCell plugins handlers beh now cmd =
         { blocked := false,
           pluginTrace :=
             (plugins.filter (fun p => decide (¬ cmd.originPlugin = some p.name))).map
               (fun p => p.name),
           deliveries := deliverToCell handlers beh now (stampCell now cmd) }) ∧
    (∀ (plugins : List PluginB) (handlers : List (Id × Nat)) (beh : HandlerBeh)
       (now : Nat) (cmd : CellCmd) (l1 l2 : List PluginB) (p : PluginB),
       plugins.filter (fun q => decide (¬ cmd.originPlugin = some q.name)) = l1 ++ p :: l2 →
       (∀ q ∈ l1, q.onBeforeCellCommand (stampCell now cmd) ≠ .retFalse) →
       p.onBeforeCellCommand (stampCell now cmd) = .retFalse →
       dispatchCell plugins handlers beh now cmd =
         { blocked := true,
           pluginTrace := l1.map (fun q => q.name) ++ [p.name],
           deliveries := [] }) ∧
    (∀ (handlers : List (Id × Nat)) (beh : HandlerBeh) (now : Nat) (cmd : CellCmd)
       (k : Id) (hv : Nat), cmd.targetId = some k → mapGet handlers k = some hv →
       (deliverToCell handlers beh now cmd).head? = some (hv, cmd)) := by
  refine ⟨?_, ?_, ?_⟩
  · intro plugins handlers beh now cmd h
    have hfe : plugins.filter (fun p => decide (¬ (stampCell now cmd).originPlugin = some p.name)) =
        plugins.filter (fun p => decide (¬ cmd.originPlugin = some p.name)) := by
      simp only [stampCell_originPlugin]
    have hrun := runPluginChain_eq_of_no_block (stampCell now cmd) plugins
      (by rw [hfe]; exact h)
    rw [hfe] at hrun
    simp only [dispatchCell]
    rw [hrun]
    simp
  · intro plugins handlers beh now cmd l1 l2 p he h1 hp
    have hfe : plugins.filter (fun q => decide (¬ (stampCell now cmd).originPlugin = some q.name)) =
        plugins.filter (fun q => decide (¬ cmd.originPlugin = some q.name)) := by
      simp only [stampCell_originPlugin]
    have hrun := runPluginChain_eq_of_block (stampCell now cmd) plugins l1 l2 p
      (by rw [hfe]; exact he) h1 hp
    simp only [dispatchCell]
    rw [hrun]
    simp
  · intro handlers beh now cmd k hv ht hh
    unfold deliverToCell
    rw [ht]
    simp only [Option.some_bind, hh]
    cases beh hv cmd <;> rfl

/-- Witness for C2 at concrete inputs: a two-plugin chain where `"A"` passes
and `"B"` blocks `edit` commands; dispatching an `edit` command runs `A`
then `B` and never reaches the handler, while a command originated by `"B"`
skips `B`, runs only `A`, and is delivered. -/
theorem c2_interception_chain_witness :
    (dispatchCell
        [⟨"A", fun _ => .retOther⟩, ⟨"B", fun c => if c.name = "edit" then .retFalse else .retOther⟩]
        [("cell1", 9)] (fun _ _ => none) 5
        { name := "edit", targetId := some "cell1", originPlugin := none,
          timestamp := some 1, payloadError := none } =
      { blocked := true, pluginTrace := ["A", "B"], deliveries := [] }) ∧
    (dispatchCell
        [⟨"A", fun _ => .retOther⟩, ⟨"B", fun c => if c.name = "edit" then .retFalse else .retOther⟩]
        [("cell1", 9)] (fun _ _ => none) 5
        { name := "focus", targetId := some "cell1", originPlugin := some "B",
          timestamp := some 1, payloadError := none } =
      { blocked := false, pluginTrace := ["A"],
        deliveries := [(9, { name := "focus", targetId := some "cell1", originPlugin := some "B",
                             timestamp := some 1, payloadError := none })] }) := by
  constructor
  · exact c2_interception_chain.2.1
      [⟨"A", fun _ => .retOther⟩, ⟨"B", fun c => if c.name = "edit" then .retFalse else .retOther⟩]
      [("cell1", 9)] (fun _ _ => none) 5
      { name := "edit", targetId := some "cell1", originPlugin := none,
        timestamp := some 1, payloadError := none }
      [⟨"A", fun _ => .retOther⟩] [] ⟨"B", fun c => if c.name = "edit" then .retFalse else .retOther⟩
      (by rfl) (by intro q hq; fin_cases hq; decide) (by rfl)
  · have h := c2_interception_chain.1
      [⟨"A", fun _ => .retOther⟩, ⟨"B", fun c => if c.name = "edit" then .retFalse else .retOther⟩]
      [("cell1", 9)] (fun _ _ => none) 5
      { name := "focus", targetId := some "cell1", originPlugin := some "B",
        timestamp := some 1, payloadError := none }
      (by intro p hp; fin_cases hp; simp)
    rw [h]
    rfl

/-! # Claim C7 -/

/-- C7 (counterexample): a throwing handler on the Row bus also receives a
synthesized `error` command — delivery on the row kind produces the
original command followed by an `error` command — contradicting the claim
that only the Cell kind synthesizes an error command. -/
theorem c7_counterexample_row_error_command :
    (deliverToRow [("r", 5)] (fun _ _ => some 3) 7
        { name := "destroy", targetId := "r", originPlugin := none,
          timestamp := some 7, payloadError := none }).map (fun d => d.2.name) =
      ["destroy", "error"] := by rfl

/-- C7 (amended): when a registered target handler throws during dispatch,
the error is caught and logged and, for the Cell and Row command kinds
alike, a single synthesized `error` command carrying the original error
(origin `"system"`) is delivered to the same handler; a second throw while
delivering it is logged and swallowed (the delivery trace is the same two
invocations whatever the second call does).  For the Space kind no error
command is synthesized.  Plugin interception is skipped for the synthetic
command: the plugin trace of a dispatch is the chain run on the original
command only, independent of handler behaviour. -/
theorem c7_amended_error_commands :
    (∀ (handlers : List (Id × Nat)) (beh : HandlerBeh) (now : Nat)
       (cmd : CellCmd) (k : Id) (h e : Nat),
       cmd.targetId = some k → mapGet handlers k = some h → beh h cmd = some e →
       deliverToCell handlers beh now cmd =
         [(h, cmd), (h, mkCellError cmd.targetId e now)]) ∧
    (∀ (handlers : List (Id × Nat)) (beh : RowHandlerBeh) (now : Nat)
       (cmd : RowCmd) (h e : Nat),
       mapGet handlers cmd.targetId = some h → beh h cmd = some e →
       deliverToRow handlers beh now cmd =
         [(h, cmd), (h, mkRowError cmd.targetId e now)]) ∧
    (∀ (handlers : List (Id × Nat)) (beh : SpaceHandlerBeh) (cmd : SpaceCmd) (h : Nat),
       mapGet handlers cmd.targetSpaceId = some h →
       deliverToSpace handlers beh cmd = [(h, cmd)]) ∧
    (∀ (plugins : List PluginB) (handlers : List (Id × Nat)) (beh : HandlerBeh)
       (now : Nat) (cmd : CellCmd),
       (dispatchCell plugins handlers beh now cmd).pluginTrace =
         (runPluginChain plugins (stampCell now cmd)).2) := by
  refine ⟨?_, ?_, ?_, ?_⟩
  · intro handlers beh now cmd k h e ht hh hb
    unfold deliverToCell
    rw [ht]
    simp [hh, hb]
  · intro handlers beh now cmd h e hh hb
    unfold deliverToRow
    simp [hh, hb]
  · intro handlers beh cmd h hh
    cases hbeh : beh h cmd <;> simp [deliverToSpace, hh, hbeh]
  · intro plugins handlers beh now cmd
    unfold dispatchCell
    by_cases hr : (runPluginChain plugins (stampCell now cmd)).1 <;> simp [hr]

/-- Witness for C7 (amended) at concrete inputs: an always-throwing handler
on each bus. -/
theorem c7_amended_error_commands_witness :
    (deliverToCell [("c", 4)] (fun _ _ => some 8) 6
        { name := "edit", targetId := some "c", originPlugin := none,
          timestamp := some 2, payloadError := none } =
      [(4, { name := "edit", targetId := some "c", originPlugin := none,
             timestamp := some 2, payloadError := none }),
       (4, mkCellError (some "c") 8 6)]) ∧
    (deliverToRow [("r", 5)] (fun _ _ => some 3) 7
        { name := "destroy", targetId := "r", originPlugin := none,
          timestamp := some 7, payloadError := none } =
      [(5, { name := "destroy", targetId := "r", originPlugin := none,
             timestamp := some 7, payloadError := none }),
       (5, mkRowError "r" 3 7)]) ∧
    (deliverToSpace [("s", 6)] (fun _ _ => some 2)
        { name := "addRow", targetSpaceId := "s", originPlugin := none,
          timestamp := some 3 } =
      [(6, { name := "addRow", targetSpaceId := "s", originPlugin := none,
             timestamp := some 3 })]) :=
  ⟨c7_amended_error_commands.1 [("c", 4)] (fun _ _ => some 8) 6
     { name := "edit", targetId := some "c", originPlugin := none,
       timestamp := some 2, payloadError := none } "c" 4 8 (by rfl) (by rfl) (by rfl),
   c7_amended_error_commands.2.1 [("r", 5)] (fun _ _ => some 3) 7
     { name := "destroy", targetId := "r", originPlugin := none,
       timestamp := some 7, payloadError := none } 5 3 (by rfl) (by rfl),
   c7_amended_error_commands.2.2.1 [("s", 6)] (fun _ _ => some 2)
     { name := "addRow", targetSpaceId := "s", originPlugin := none,
       timestamp := some 3 } 6 (by rfl)⟩

/-! # Claim C8 -/

/-- C8: on a command bus, registering a handler twice for one target id
leaves exactly the second handler associated and no other id affected
(last write wins); after `unregister`, a dispatch addressed to that id
invokes no handler and raises no error; and dispatching to an id that never
had a handler is likewise a delivery no-op. -/
theorem c8_register_unregister_semantics :
    (∀ (m : List (Id × Nat)) (k : Id) (h1 h2 : Nat),
       mapGet (mapSet (mapSet m k h1) k h2) k = some h2 ∧
       ∀ k2, k2 ≠ k → mapGet (mapSet (mapSet m k h1) k h2) k2 = mapGet m k2) ∧
    (∀ (plugins : List PluginB) (m : List (Id × Nat)) (beh : HandlerBeh)
       (now : Nat) (k : Id) (cmd : CellCmd),
       (mapKeys m).Nodup → cmd.targetId = some k →
       (dispatchCell plugins (mapDelete m k) beh now cmd).deliveries = []) ∧
    (∀ (plugins : List PluginB) (m : List (Id × Nat)) (beh : HandlerBeh)
       (now : Nat) (k : Id) (cmd : CellCmd),
       mapGet m k = none → cmd.targetId = some k →
       (dispatchCell plugins m beh now cmd).deliveries = []) := by
  refine ⟨?_, ?_, ?_⟩
  · intro m k h1 h2
    constructor
    · exact mapGet_set_self (mapSet m k h1) k h2
    · intro k2 hk2
      rw [mapGet_set_ne _ _ _ _ hk2, mapGet_set_ne _ _ _ _ hk2]
  · intro plugins m beh now k cmd hnd ht
    have hdel : deliverToCell (mapDelete m k) beh now (stampCell now cmd) = [] := by
      refine deliverToCell_no_handler _ _ _ _ k ?_ ?_
      · rw [stampCell_targetId, ht]
      · exact mapGet_delete_self m k hnd
    unfold dispatchCell
    by_cases hr : (runPluginChain plugins (stampCell now cmd)).1 <;> simp [hr, hdel]
  · intro plugins m beh now k cmd hget ht
    have hdel : deliverToCell m beh now (stampCell now cmd) = [] := by
      refine deliverToCell_no_handler _ _ _ _ k ?_ hget
      rw [stampCell_targetId, ht]
    unfold dispatchCell
    by_cases hr : (runPluginChain plugins (stampCell now cmd)).1 <;> simp [hr, hdel]

/-- Witness for C8 at concrete inputs. -/
theorem c8_register_unregister_semantics_witness :
    (mapGet (mapSet (mapSet [("x", 1)] "c" 2) "c" 3) "c" = some 3 ∧
       ∀ k2, k2 ≠ "c" → mapGet (mapSet (mapSet [("x", 1)] "c" 2) "c" 3) k2 =
         mapGet [("x", 1)] k2) ∧
    (dispatchCell [] (mapDelete [("c", 2)] "c") (fun _ _ => none) 4
        { name := "focus", targetId := some "c", originPlugin := none,
          timestamp := some 1, payloadError := none }).deliveries = [] ∧
    (dispatchCell [] [("x", 1)] (fun _ _ => none) 4
        { name := "focus", targetId := some "never", originPlugin := none,
          timestamp := some 1, payloadError := none }).deliveries = [] :=
  ⟨c8_register_unregister_semantics.1 [("x", 1)] "c" 2 3,
   c8_register_unregister_semantics.2.1 [] [("c", 2)] (fun _ _ => none) 4 "c"
     { name := "focus", targetId := some "c", originPlugin := none,
       timestamp := some 1, payloadError := none } (by decide) (by rfl),
   c8_register_unregister_semantics.2.2 [] [("x", 1)] (fun _ _ => none) 4 "never"
     { name := "focus", targetId := some "never", originPlugin := none,
       timestamp := some 1, payloadError := none } (by decide) (by rfl)⟩

/-! # Claim C10 -/

/-- C10: calling `destroyRow` with a row id that is not present in the row
registry is a complete no-op apart from a logged warning — no registry
entry, link field, or handler registration is created, removed, or
modified. -/
theorem c10_destroyRow_missing_is_noop (s : CoreState) (rowId : Id)
    (h : mapGet s.rowReg rowId = none) : destroyRow s rowId = s := by
  unfold destroyRow
  rw [h]

/-- Witness for C10 at a concrete state. -/
theorem c10_destroyRow_missing_is_noop_witness :
    mapGet c4State.rowReg "ghost" = none ∧ destroyRow c4State "ghost" = c4State :=
  ⟨by decide, c10_destroyRow_missing_is_noop c4State "ghost" (by decide)⟩

/-! # Claim C9 -/

/-- C9: `addCellToRow` is idempotent — adding a cell id already present in
the row's `cells` array leaves the whole state unchanged — and therefore a
row's cells list never acquires duplicate ids, however often registration
runs. -/
theorem addCellToRow_eq_none (s : CoreState) (rowId cellId : Id)
    (h : mapGet s.rowReg rowId = none) : addCellToRow s rowId cellId = s := by
  unfold addCellToRow
  rw [h]

theorem addCellToRow_eq_some (s : CoreState) (rowId cellId : Id) (row : Row)
    (h : mapGet s.rowReg rowId = some row) :
    addCellToRow s rowId cellId =
      if cellId ∈ row.cells then s
      else registerRow s rowId { row with cells := row.cells ++ [cellId] } := by
  unfold addCellToRow
  rw [h]

theorem c9_addCellToRow_idempotent :
    (∀ (s : CoreState) (rowId cellId : Id) (row : Row),
       mapGet s.rowReg rowId = some row → cellId ∈ row.cells →
       addCellToRow s rowId cellId = s) ∧
    (∀ (s : CoreState) (rowId cellId : Id),
       (∀ rid r, mapGet s.rowReg rid = some r → r.cells.Nodup) →
       ∀ rid r, mapGet (addCellToRow s rowId cellId).rowReg rid = some r →
         r.cells.Nodup) := by
  constructor
  · intro s rowId cellId row hget hmem
    rw [addCellToRow_eq_some s rowId cellId row hget, if_pos hmem]
  · intro s rowId cellId hnd rid r hget
    cases hrow : mapGet s.rowReg rowId with
    | none =>
      rw [addCellToRow_eq_none s rowId cellId hrow] at hget
      exact hnd _ _ hget
    | some row =>
      rw [addCellToRow_eq_some s rowId cellId row hrow] at hget
      by_cases hmem : cellId ∈ row.cells
      · rw [if_pos hmem] at hget
        exact hnd _ _ hget
      · rw [if_neg hmem] at hget
        simp only [registerRow] at hget
        by_cases hr : rid = rowId
        · subst hr
          rw [mapGet_set_self] at hget
          cases hget
          simpa [List.nodup_append] using ⟨hnd _ _ hrow, hmem⟩
        · rw [mapGet_set_ne _ _ _ _ hr] at hget
          exact hnd _ _ hget

/-- Witness for C9 at a concrete state: re-adding cell `"t0"` to row `"t"`
changes nothing, and cells lists stay duplicate-free. -/
theorem c9_addCellToRow_idempotent_witness :
    addCellToRow c4State "t" "t0" = c4State ∧
    ∀ rid r, mapGet (addCellToRow c4State "t" "t0").rowReg rid = some r →
      r.cells.Nodup :=
  ⟨c9_addCellToRow_idempotent.1 c4State "t" "t0"
     { spaceId := "sp", data := 0, cells := ["t0", "t1"],
       top := none, bottom := some "m", fractionalIndex := "50000" }
     (by decide) (by decide),
   c9_addCellToRow_idempotent.2 c4State "t" "t0" (by
     intro rid r h
     have hm := mapGet_some_mem _ _ _ h
     have hall : ∀ e ∈ c4State.rowReg, e.2.cells.Nodup := by decide
     exact hall (rid, r) hm)⟩

/-! # Claim C1 -/

/-- C1 (code evaluation at the failing input): three plain `bottom`
insertions into one empty space already violate the bidirectional
row-adjacency invariant.  After inserting rows `a`, `b`, `c` in that order,
row `b` still points up at `a` while `a` points down at `c` — because
`findVisualNeighbors` scans the rows sorted descending with a loop written
for ascending order, so every insertion below the top picks the topmost row
as its `aboveRow` and never repairs the previous pair. -/
theorem c1_insertion_breaks_bidirectional_links :
    rowBidirOK threeBottomInserts.rowReg = false ∧
    (mapGet threeBottomInserts.rowReg "b").map (fun r => r.top) = some (some "a") ∧
    (mapGet threeBottomInserts.rowReg "a").map (fun r => r.bottom) = some (some "c") ∧
    (mapGet threeBottomInserts.rowReg "b").map (fun r => r.bottom) = some none :=
  ⟨by decide, by decide, by decide, by decide⟩

/-! # Claim C3 -/

/-- C3 (code evaluation at the failing input): in the spec's cross-segment
scenario `D(rows) → C(empty) → B(empty) → A(empty) → T(rows)`, inserting a
row into `B` at `bottom` and running the deferred cross-space linking step
links the new row's cells only downward to `T`'s top row; the upward link
to `D`'s bottom row is never made (`nc0.top` stays `none` and `dc0.bottom`
stays `none`).  The deferred callback scheduled by `handleAddRow` closes
over the pre-insertion `rowIds`, so the `rowIds.length === 1` branch that
links both directions is unreachable and the `else` branch links one side
only. -/
theorem c3_cross_segment_linking_is_one_sided :
    (mapGet c3Final.cellReg "nc0").map (fun c => c.top) = some none ∧
    (mapGet c3Final.cellReg "nc0").map (fun c => c.bottom) = some (some "tc0") ∧
    (mapGet c3Final.cellReg "tc0").map (fun c => c.top) = some (some "nc0") ∧
    (mapGet c3Final.cellReg "dc0").map (fun c => c.bottom) = some none ∧
    (mapGet c3Final.cellReg "dc1").map (fun c => c.bottom) = some none :=
  ⟨by decide, by decide, by decide, by decide, by decide⟩

/-! # Claim C5 -/

/-- C5 (counterexample): the sixth consecutive `top` insertion into one
empty segment generates key `"100000"`, which does not compare greater than
the existing key `"90000"` in the string order the engine sorts by, so the
generated order keys are not strictly monotonic for every insertion
sequence. -/
theorem c5_counterexample_sixth_top_insert :
    checkRun [TB.top, TB.top, TB.top, TB.top, TB.top, TB.top] = false ∧
    calculateFractionalIndexForSpace fiveTopInserts "sp" .top = "100000" ∧
    strLt "100000" "90000" = true :=
  ⟨by decide, by decide, by decide⟩

/-- C5 (amended): for every sequence of at most five `insert` calls into
one empty segment the generated order keys are strictly monotonic in
insertion-implied visual order — every `top` key compares strictly above
all keys already in the segment and every `bottom` key strictly below them
(hence no collision with a neighbour key).  Beyond that bound the property
fails, as the counterexample shows. -/
theorem c5_amended_bounded_monotonicity :
    ∀ sq ∈ seqsUpTo 5, checkRun sq = true := by decide

/-- Witness for C5 (amended) at a concrete sequence. -/
theorem c5_amended_bounded_monotonicity_witness :
    [TB.top, TB.bottom, TB.top, TB.bottom, TB.top] ∈ seqsUpTo 5 ∧
    checkRun [TB.top, TB.bottom, TB.top, TB.bottom, TB.top] = true :=
  ⟨by decide,
   c5_amended_bounded_monotonicity [TB.top, TB.bottom, TB.top, TB.bottom, TB.top]
     (by decide)⟩

/-! # Lemmas about the spatial coordinator -/

theorem mapGet_isSome_of_mem_keys {α : Type} (m : List (Id × α)) (c : Id)
    (h : c ∈ mapKeys m) : (mapGet m c).isSome = true := by
  induction m with
  | nil => simp [mapKeys] at h
  | cons e rest ih =>
    obtain ⟨k1, v1⟩ := e
    by_cases h1 : k1 = c
    · simp [mapGet, h1]
    · rw [mapKeys_cons] at h
      rcases List.mem_cons.mp h with h2 | h2
      · exact absurd h2.symm h1
      · simp [mapGet, h1, ih h2]

theorem linkVertical_get_other (reg : List (Id × Cell)) (a b c : Id)
    (hca : c ≠ a) (hcb : c ≠ b) :
    mapGet (linkVertical reg a b) c = mapGet reg c := by
  unfold linkVertical
  split
  · rw [mapGet_set_ne _ _ _ _ hcb, mapGet_set_ne _ _ _ _ hca]
  · rfl

theorem linkVertical_keys (reg : List (Id × Cell)) (a b : Id) :
    mapKeys (linkVertical reg a b) = mapKeys reg := by
  unfold linkVertical
  split
  · rename_i ca cb hga hgb
    have hma : a ∈ mapKeys reg := mem_keys_of_mapGet_some reg a ca hga
    have hmb : b ∈ mapKeys reg := mem_keys_of_mapGet_some reg b cb hgb
    rw [mapKeys_set_of_mem _ b _ (by rw [mapKeys_set_of_mem _ a _ hma]; exact hmb),
      mapKeys_set_of_mem _ a _ hma]
  · rfl

theorem foldPairs_get_not_mem (ts : List Id) :
    ∀ (bs : List Id) (reg : List (Id × Cell)) (c : Id), c ∉ ts → c ∉ bs →
      mapGet ((ts.zip bs).foldl (fun r p => linkVertical r p.1 p.2) reg) c =
        mapGet reg c := by
  induction ts with
  | nil => intro bs reg c _ _; rfl
  | cons t ts ih =>
    intro bs reg c hc1 hc2
    cases bs with
    | nil => rfl
    | cons b bs =>
      rw [List.zip_cons_cons, List.foldl_cons]
      have hct : c ≠ t := fun hh => hc1 (hh ▸ List.mem_cons_self t ts)
      have hcb : c ≠ b := fun hh => hc2 (hh ▸ List.mem_cons_self b bs)
      rw [ih bs (linkVertical reg t b) c
          (fun hh => hc1 (List.mem_cons_of_mem t hh))
          (fun hh => hc2 (List.mem_cons_of_mem b hh)),
        linkVertical_get_other reg t b c hct hcb]

theorem foldPairs_keys (ts : List Id) :
    ∀ (bs : List Id) (reg : List (Id × Cell)),
      mapKeys ((ts.zip bs).foldl (fun r p => linkVertical r p.1 p.2) reg) =
        mapKeys reg := by
  induction ts with
  | nil => intro bs reg; rfl
  | cons t ts ih =>
    intro bs reg
    cases bs with
    | nil => rfl
    | cons b bs =>
      rw [List.zip_cons_cons, List.foldl_cons, ih bs (linkVertical reg t b),
        linkVertical_keys]

theorem linkRowsCells_keys (reg : List (Id × Cell)) (tcs bcs : List Id) :
    mapKeys (linkRowsCells reg tcs bcs) = mapKeys reg := by
  unfold linkRowsCells
  split
  · exact foldPairs_keys tcs bcs reg
  · rfl

theorem linkRowsCells_get_none (reg : List (Id × Cell)) (tcs bcs : List Id)
    (c : Id) (h : mapGet reg c = none) :
    mapGet (linkRowsCells reg tcs bcs) c = none := by
  refine mapGet_eq_none_of_not_mem _ _ ?_
  rw [linkRowsCells_keys]
  intro hmem
  have hs := mapGet_isSome_of_mem_keys reg c hmem
  rw [h] at hs
  exact absurd hs (by simp)

theorem foldPairs_pairwise (tcs : List Id) :
    ∀ (bcs : List Id) (reg : List (Id × Cell)),
      tcs.length = bcs.length →
      (tcs ++ bcs).Nodup →
      (∀ c ∈ tcs ++ bcs, c ∈ mapKeys reg) →
      ∀ i (hit : i < tcs.length) (hib : i < bcs.length),
        mapGet ((tcs.zip bcs).foldl (fun r p => linkVertical r p.1 p.2) reg)
            (tcs.get ⟨i, hit⟩) =
          (mapGet reg (tcs.get ⟨i, hit⟩)).map
            (fun cell => { cell with bottom := some (bcs.get ⟨i, hib⟩) }) ∧
        mapGet ((tcs.zip bcs).foldl (fun r p => linkVertical r p.1 p.2) reg)
            (bcs.get ⟨i, hib⟩) =
          (mapGet reg (bcs.get ⟨i, hib⟩)).map
            (fun cell => { cell with top := some (tcs.get ⟨i, hit⟩) }) := by
  induction tcs with
  | nil =>
    intro bcs reg _ _ _ i hit
    exact absurd hit (by simp)
  | cons t ts ih =>
    intro bcs reg hlen hnd hpres i hit hib
    cases bcs with
    | nil => simp at hlen
    | cons b bs =>
      have hnd1 : (t :: (ts ++ b :: bs)).Nodup := by
        rw [List.cons_append] at hnd
        exact hnd
      have ht_rest : t ∉ ts ++ b :: bs := (List.nodup_cons.mp hnd1).1
      have hnd2 : (ts ++ b :: bs).Nodup := (List.nodup_cons.mp hnd1).2
      have hts_nd : ts.Nodup := (List.nodup_append.mp hnd2).1
      have hbbs_nd : (b :: bs).Nodup := (List.nodup_append.mp hnd2).2.1
      have hdisj : ts.Disjoint (b :: bs) := (List.nodup_append.mp hnd2).2.2
      have htb : t ≠ b :=
        fun hh => ht_rest (List.mem_append_right ts (hh ▸ List.mem_cons_self b bs))
      have ht_ts : t ∉ ts := fun hh => ht_rest (List.mem_append_left _ hh)
      have ht_bs : t ∉ bs :=
        fun hh => ht_rest (List.mem_append_right ts (List.mem_cons_of_mem b hh))
      have hb_ts : b ∉ ts := fun hh => hdisj hh (List.mem_cons_self b bs)
      have hb_bs : b ∉ bs := (List.nodup_cons.mp hbbs_nd).1
      obtain ⟨ct, hct⟩ := Option.isSome_iff_exists.mp
        (mapGet_isSome_of_mem_keys reg t
          (hpres t (List.mem_append_left _ (List.mem_cons_self t ts))))
      obtain ⟨cb, hcb⟩ := Option.isSome_iff_exists.mp
        (mapGet_isSome_of_mem_keys reg b
          (hpres b (List.mem_append_right _ (List.mem_cons_self b bs))))
      have hreg1 : linkVertical reg t b =
          mapSet (mapSet reg t { ct with bottom := some b }) b { cb with top := some t } := by
        unfold linkVertical
        rw [hct, hcb]
      rw [List.zip_cons_cons, List.foldl_cons]
      dsimp only
      cases i with
      | zero =>
        have e1 : (t :: ts).get ⟨0, hit⟩ = t := rfl
        have e2 : (b :: bs).get ⟨0, hib⟩ = b := rfl
        rw [e1, e2]
        constructor
        · rw [foldPairs_get_not_mem ts bs (linkVertical reg t b) t ht_ts ht_bs,
            hreg1, mapGet_set_ne _ _ _ _ htb, mapGet_set_self]
          simp [hct]
        · rw [foldPairs_get_not_mem ts bs (linkVertical reg t b) b hb_ts hb_bs,
            hreg1, mapGet_set_self]
          simp [hcb]
      | succ i =>
        have hit2 : i < ts.length := by simpa using hit
        have hib2 : i < bs.length := by simpa using hib
        have hnd3 : (ts ++ bs).Nodup := by
          rw [List.nodup_append]
          refine ⟨hts_nd, (List.nodup_cons.mp hbbs_nd).2, ?_⟩
          intro a ha hab
          exact hdisj ha (List.mem_cons_of_mem b hab)
        have hpres2 : ∀ c ∈ ts ++ bs, c ∈ mapKeys (linkVertical reg t b) := by
          intro c hc
          rw [linkVertical_keys]
          rcases List.mem_append.mp hc with hc1 | hc1
          · exact hpres c (List.mem_append_left _ (List.mem_cons_of_mem t hc1))
          · exact hpres c
              (List.mem_append_right _ (List.mem_cons_of_mem b hc1))
        have hih := ih bs (linkVertical reg t b) (by simpa using hlen) hnd3 hpres2
          i hit2 hib2
        have hx : ts.get ⟨i, hit2⟩ ∈ ts := List.get_mem ts i hit2
        have hy : bs.get ⟨i, hib2⟩ ∈ bs := List.get_mem bs i hib2
        have hxt : ts.get ⟨i, hit2⟩ ≠ t := fun hh => ht_ts (hh ▸ hx)
        have hxb : ts.get ⟨i, hit2⟩ ≠ b := fun hh => hb_ts (hh ▸ hx)
        have hyt : bs.get ⟨i, hib2⟩ ≠ t := fun hh => ht_bs (hh ▸ hy)
        have hyb : bs.get ⟨i, hib2⟩ ≠ b := fun hh => hb_bs (hh ▸ hy)
        have hgx : mapGet (linkVertical reg t b) (ts.get ⟨i, hit2⟩) =
            mapGet reg (ts.get ⟨i, hit2⟩) := linkVertical_get_other reg t b _ hxt hxb
        have hgy : mapGet (linkVertical reg t b) (bs.get ⟨i, hib2⟩) =
            mapGet reg (bs.get ⟨i, hib2⟩) := linkVertical_get_other reg t b _ hyt hyb
        rw [hgx, hgy] at hih
        simpa only [List.get_cons_succ] using hih

theorem linkRowsCells_pairwise (tcs bcs : List Id) (reg : List (Id × Cell))
    (hlen : tcs.length = bcs.length)
    (hnd : (tcs ++ bcs).Nodup)
    (hpres : ∀ c ∈ tcs ++ bcs, c ∈ mapKeys reg) :
    ∀ i (hit : i < tcs.length) (hib : i < bcs.length),
      mapGet (linkRowsCells reg tcs bcs) (tcs.get ⟨i, hit⟩) =
        (mapGet reg (tcs.get ⟨i, hit⟩)).map
          (fun cell => { cell with bottom := some (bcs.get ⟨i, hib⟩) }) ∧
      mapGet (linkRowsCells reg tcs bcs) (bcs.get ⟨i, hib⟩) =
        (mapGet reg (bcs.get ⟨i, hib⟩)).map
          (fun cell => { cell with top := some (tcs.get ⟨i, hit⟩) }) := by
  intro i hit hib
  unfold linkRowsCells
  rw [if_pos hlen]
  exact foldPairs_pairwise tcs bcs reg hlen hnd hpres i hit hib

theorem destroyCellsFold_spec (cells : List Id) :
    ∀ s : CoreState,
      (cells.foldl
        (fun st cid => { st with cellHandlers := mapDelete st.cellHandlers cid,
                                 cellReg := mapDelete st.cellReg cid }) s) =
      { s with cellHandlers := mapDeleteAll s.cellHandlers cells,
               cellReg := mapDeleteAll s.cellReg cells } := by
  induction cells with
  | nil => intro s; rfl
  | cons c cells ih =>
    intro s
    rw [List.foldl_cons, ih]
    simp [mapDeleteAll]

theorem destroyRow_eq_both (s : CoreState) (rid t b : Id) (row tr br : Row)
    (hrow : mapGet s.rowReg rid = some row)
    (ht : row.top = some t) (hb : row.bottom = some b)
    (htr : mapGet s.rowReg t = some tr) (hbr : mapGet s.rowReg b = some br)
    (htb : t ≠ b) :
    destroyRow s rid =
      { cellHandlers := mapDeleteAll s.cellHandlers row.cells,
        rowHandlers := mapDelete s.rowHandlers rid,
        cellReg := linkRowsCells (mapDeleteAll s.cellReg row.cells) tr.cells br.cells,
        rowReg := mapDelete
          (mapSet (mapSet s.rowReg t { tr with bottom := some b }) b
            { br with top := some t }) rid,
        spaceReg := s.spaceReg } := by
  have hgt : mapGet (mapSet (mapSet s.rowReg t { tr with bottom := some b }) b
      { br with top := some t }) t = some { tr with bottom := some b } := by
    rw [mapGet_set_ne _ _ _ _ htb, mapGet_set_self]
  have hgb : mapGet (mapSet (mapSet s.rowReg t { tr with bottom := some b }) b
      { br with top := some t }) b = some { br with top := some t } :=
    mapGet_set_self _ _ _
  unfold destroyRow
  rw [hrow]
  dsimp only
  rw [destroyCellsFold_spec]
  dsimp only
  rw [ht, hb]
  dsimp only
  unfold linkRows
  rw [htr, hbr]
  dsimp only
  rw [hgt, hgb]

/-! # Claim C4 (amended part) -/

/-- C4 (amended): for every row whose `top` and `bottom` references are both
non-null, `destroyRow` links those two neighbour rows directly to each
other at row granularity and, given equal cell counts, at cell granularity
(cell `i` of the top neighbour points down at cell `i` of the bottom
neighbour and back); afterwards the destroyed row and every one of its
cells are absent from the row/cell registries and the row/cell command
buses.  The owning space's `rowIds` is NOT updated: the space registry is
left entirely unchanged (this is the one correction to the claim). -/
theorem c4_amended_destroyRow (s : CoreState) (rid t b : Id) (row tr br : Row)
    (hrow : mapGet s.rowReg rid = some row)
    (ht : row.top = some t) (hb : row.bottom = some b)
    (htr : mapGet s.rowReg t = some tr) (hbr : mapGet s.rowReg b = some br)
    (htb : t ≠ b) (htrid : t ≠ rid) (hbrid : b ≠ rid)
    (hlen : tr.cells.length = br.cells.length)
    (hndrow : (mapKeys s.rowReg).Nodup)
    (hndrowH : (mapKeys s.rowHandlers).Nodup)
    (hndcellH : (mapKeys s.cellHandlers).Nodup)
    (hndcell : (mapKeys s.cellReg).Nodup)
    (hcellsnd : (tr.cells ++ br.cells).Nodup)
    (hcellpres : ∀ c ∈ tr.cells ++ br.cells, c ∈ mapKeys s.cellReg ∧ c ∉ row.cells) :
    mapGet (destroyRow s rid).rowReg t = some { tr with bottom := some b } ∧
    mapGet (destroyRow s rid).rowReg b = some { br with top := some t } ∧
    (∀ i (hit : i < tr.cells.length) (hib : i < br.cells.length),
       mapGet (destroyRow s rid).cellReg (tr.cells.get ⟨i, hit⟩) =
         (mapGet s.cellReg (tr.cells.get ⟨i, hit⟩)).map
           (fun c => { c with bottom := some (br.cells.get ⟨i, hib⟩) }) ∧
       mapGet (destroyRow s rid).cellReg (br.cells.get ⟨i, hib⟩) =
         (mapGet s.cellReg (br.cells.get ⟨i, hib⟩)).map
           (fun c => { c with top := some (tr.cells.get ⟨i, hit⟩) })) ∧
    mapGet (destroyRow s rid).rowReg rid = none ∧
    mapGet (destroyRow s rid).rowHandlers rid = none ∧
    (∀ c ∈ row.cells, mapGet (destroyRow s rid).cellReg c = none ∧
       mapGet (destroyRow s rid).cellHandlers c = none) ∧
    (destroyRow s rid).spaceReg = s.spaceReg := by
  rw [destroyRow_eq_both s rid t b row tr br hrow ht hb htr hbr htb]
  have hpres1 : ∀ c ∈ tr.cells ++ br.cells,
      mapGet (mapDeleteAll s.cellReg row.cells) c = mapGet s.cellReg c := by
    intro c hc
    exact mapGet_deleteAll_not_mem row.cells s.cellReg c (hcellpres c hc).2
  have hpres2 : ∀ c ∈ tr.cells ++ br.cells,
      c ∈ mapKeys (mapDeleteAll s.cellReg row.cells) := by
    intro c hc
    obtain ⟨cv, hcv⟩ := Option.isSome_iff_exists.mp
      (mapGet_isSome_of_mem_keys s.cellReg c (hcellpres c hc).1)
    refine mem_keys_of_mapGet_some _ c cv ?_
    rw [hpres1 c hc, hcv]
  refine ⟨?_, ?_, ?_, ?_, ?_, ?_, rfl⟩
  · dsimp only
    rw [mapGet_delete_ne _ _ _ htrid, mapGet_set_ne _ _ _ _ htb, mapGet_set_self]
  · dsimp only
    rw [mapGet_delete_ne _ _ _ hbrid, mapGet_set_self]
  · intro i hit hib
    dsimp only
    have hpair := linkRowsCells_pairwise tr.cells br.cells
      (mapDeleteAll s.cellReg row.cells) hlen hcellsnd hpres2 i hit hib
    have hxm : tr.cells.get ⟨i, hit⟩ ∈ tr.cells ++ br.cells :=
      List.mem_append_left _ (List.get_mem tr.cells i hit)
    have hym : br.cells.get ⟨i, hib⟩ ∈ tr.cells ++ br.cells :=
      List.mem_append_right _ (List.get_mem br.cells i hib)
    rw [hpres1 _ hxm, hpres1 _ hym] at hpair
    exact hpair
  · dsimp only
    refine mapGet_delete_self _ rid ?_
    have hmt : t ∈ mapKeys s.rowReg := mem_keys_of_mapGet_some _ t tr htr
    have hmb : b ∈ mapKeys (mapSet s.rowReg t { tr with bottom := some b }) := by
      rw [mapKeys_set_of_mem _ t _ hmt]
      exact mem_keys_of_mapGet_some _ b br hbr
    rw [mapKeys_set_of_mem _ b _ hmb, mapKeys_set_of_mem _ t _ hmt]
    exact hndrow
  · dsimp only
    exact mapGet_delete_self _ rid hndrowH
  · intro c hc
    dsimp only
    constructor
    · refine linkRowsCells_get_none _ _ _ c ?_
      exact mapGet_deleteAll_mem row.cells s.cellReg c hndcell hc
    · exact mapGet_deleteAll_mem row.cells s.cellHandlers c hndcellH hc

/-- Witness for C4 (amended) at the concrete three-row chain: destroying the
middle row `"m"` links `"t"` and `"b"` directly at row and cell level and
removes `"m"` and its cells everywhere except the space's `rowIds`. -/
theorem c4_amended_destroyRow_witness :
    mapGet (destroyRow c4State "m").rowReg "t" =
      some { spaceId := "sp", data := 0, cells := ["t0", "t1"],
             top := none, bottom := some "b", fractionalIndex := "50000" } ∧
    mapGet (destroyRow c4State "m").rowReg "m" = none ∧
    (destroyRow c4State "m").spaceReg = c4State.spaceReg := by
  have h := c4_amended_destroyRow c4State "m" "t" "b"
    { spaceId := "sp", data := 0, cells := ["m0", "m1"],
      top := some "t", bottom := some "b", fractionalIndex := "40000" }
    { spaceId := "sp", data := 0, cells := ["t0", "t1"],
      top := none, bottom := some "m", fractionalIndex := "50000" }
    { spaceId := "sp", data := 0, cells := ["b0", "b1"],
      top := some "m", bottom := none, fractionalIndex := "30000" }
    (by decide) (by decide) (by decide) (by decide) (by decide)
    (by decide) (by decide) (by decide) (by decide) (by decide)
    (by decide) (by decide) (by decide) (by decide) (by decide)
  exact ⟨h.1, h.2.2.2.1, h.2.2.2.2.2.2⟩

/-! # Claim C4 (counterexample part) -/

/-- C4 (counterexample): destroying the middle row `"m"` of a three-row
chain removes it from the row registry but leaves its owning space's
`rowIds` unchanged — `destroyRow` never touches the space registry, so the
destroyed id `"m"` is still listed. -/
theorem c4_counterexample_rowIds_not_removed :
    (mapGet c4State.rowReg "m").isSome = true ∧
    (mapGet c4State.spaceReg "sp").map (fun sp => sp.rowIds) = some ["t", "m", "b"] ∧
    mapGet (destroyRow c4State "m").rowReg "m" = none ∧
    (mapGet (destroyRow c4State "m").spaceReg "sp").map (fun sp => sp.rowIds) =
      some ["t", "m", "b"] :=
  ⟨by decide, by decide, by decide, by decide⟩

/-! # Lemmas about the plugin dependency resolver -/

theorem lookupPlugin_eq_some (ps : List PluginDecl) (n : String) (p : PluginDecl)
    (h : lookupPlugin ps n = some p) : p ∈ ps ∧ p.name = n := by
  unfold lookupPlugin at h
  have h2 := List.find?_some h
  exact ⟨List.mem_of_find?_eq_some h, of_decide_eq_true (by simpa using h2)⟩

theorem mem_names_of_lookup_some (ps : List PluginDecl) (n : String) (p : PluginDecl)
    (h : lookupPlugin ps n = some p) : n ∈ pluginNames ps := by
  obtain ⟨hmem, hname⟩ := lookupPlugin_eq_some ps n p h
  exact hname ▸ List.mem_map_of_mem (fun q => q.name) hmem

theorem lookupPlugin_isSome_of_mem (ps : List PluginDecl) (n : String)
    (h : n ∈ pluginNames ps) : ∃ p, lookupPlugin ps n = some p := by
  obtain ⟨p, hp, hname⟩ := List.mem_map.mp h
  have : (ps.find? (fun q => decide (q.name = n))).isSome := by
    rw [List.find?_isSome]
    exact ⟨p, hp, by simp [hname]⟩
  obtain ⟨q, hq⟩ := Option.isSome_iff_exists.mp this
  exact ⟨q, hq⟩

theorem lookupPlugin_self (ps : List PluginDecl) (p : PluginDecl)
    (hnd : (pluginNames ps).Nodup) (hp : p ∈ ps) :
    lookupPlugin ps p.name = some p := by
  induction ps with
  | nil => simp at hp
  | cons q rest ih =>
    rw [show pluginNames (q :: rest) = q.name :: pluginNames rest from rfl,
      List.nodup_cons] at hnd
    rcases List.mem_cons.mp hp with hqp | hqp
    · subst hqp
      unfold lookupPlugin
      simp [List.find?]
    · have hne : ¬ q.name = p.name := by
        intro he
        exact hnd.1 (he ▸ List.mem_map_of_mem (fun r => r.name) hqp)
      unfold lookupPlugin at ih ⊢
      rw [List.find?_cons_of_neg _ (by simpa using hne)]
      exact ih hnd.2 hqp

theorem exceptFoldVisit_nil (ps : List PluginDecl) (fuel : Nat) (st : ResolveSt) :
    List.foldlM (fun acc d => visit ps fuel d acc) st ([] : List String) = .ok st := rfl

theorem exceptFoldVisit_cons (ps : List PluginDecl) (fuel : Nat) (d : String)
    (ds : List String) (st : ResolveSt) :
    List.foldlM (fun acc d => visit ps fuel d acc) st (d :: ds) =
      match visit ps fuel d st with
      | .error e => .error e
      | .ok st1 => List.foldlM (fun acc d => visit ps fuel d acc) st1 ds := by
  rw [List.foldlM_cons]
  cases visit ps fuel d st <;> rfl

theorem nodup_length_le_names (ps : List PluginDecl) (V : List String)
    (hnd : V.Nodup) (hsub : ∀ m ∈ V, m ∈ pluginNames ps) :
    V.length ≤ ps.length := by
  have h1 : V.length = V.toFinset.card := (List.toFinset_card_of_nodup hnd).symm
  have h2 : V.toFinset ⊆ (pluginNames ps).toFinset := by
    intro a ha
    rw [List.mem_toFinset] at ha ⊢
    exact hsub a ha
  have h3 : (pluginNames ps).length = ps.length := by simp [pluginNames]
  calc V.length = V.toFinset.card := h1
    _ ≤ (pluginNames ps).toFinset.card := Finset.card_le_card h2
    _ ≤ (pluginNames ps).length := (pluginNames ps).toFinset_card_le
    _ = ps.length := h3

theorem depsClosed_append_one (ps : List PluginDecl) (l : List String) (n : String)
    (hdc : DepsClosed ps l)
    (hn : ∀ p, lookupPlugin ps n = some p → ∀ d ∈ p.dependencies, d ∈ l) :
    DepsClosed ps (l ++ [n]) := by
  intro i hi p hlk d hd
  rcases Nat.lt_or_ge i l.length with hlt | hge
  · have hget : (l ++ [n]).get ⟨i, hi⟩ = l.get ⟨i, hlt⟩ := by
      rw [List.get_eq_getElem, List.get_eq_getElem, List.getElem_append_left]
    have htake : (l ++ [n]).take i = l.take i :=
      List.take_append_of_le_length (le_of_lt hlt)
    rw [htake]
    exact hdc i hlt p (hget ▸ hlk) d hd
  · have hieq : i = l.length := by
      have : i < l.length + 1 := by simpa using hi
      omega
    subst hieq
    have hget : (l ++ [n]).get ⟨l.length, hi⟩ = n := by
      rw [List.get_eq_getElem, List.getElem_append_right (le_refl l.length)]
      simp
    have htake : (l ++ [n]).take l.length = l := List.take_left l [n]
    rw [htake]
    exact hn p (hget ▸ hlk) d hd

theorem foldVisit_rel (ps : List PluginDecl) (fuel : Nat)
    (hR : ∀ d a b, visit ps fuel d a = .ok b →
       (b.visiting = a.visiting ∧ (∀ m ∈ a.visited, m ∈ b.visited) ∧ d ∈ b.visited ∧
        (∀ m ∈ b.visited, m ∈ a.visited ∨ (m ∉ a.visiting ∧ m ∈ pluginNames ps)) ∧
        (∃ l, b.order = a.order ++ l) ∧ (StInv ps a → StInv ps b))) :
    ∀ (ds : List String) (a b : ResolveSt),
      List.foldlM (fun acc d => visit ps fuel d acc) a ds = .ok b →
      (b.visiting = a.visiting ∧ (∀ m ∈ a.visited, m ∈ b.visited) ∧
       (∀ d ∈ ds, d ∈ b.visited) ∧
       (∀ m ∈ b.visited, m ∈ a.visited ∨ (m ∉ a.visiting ∧ m ∈ pluginNames ps)) ∧
       (∃ l, b.order = a.order ++ l) ∧ (StInv ps a → StInv ps b)) := by
  intro ds
  induction ds with
  | nil =>
    intro a b h
    rw [exceptFoldVisit_nil] at h
    injection h with h
    subst h
    exact ⟨rfl, fun m hm => hm, by simp, fun m hm => Or.inl hm, ⟨[], by simp⟩, id⟩
  | cons d ds ih =>
    intro a b h
    rw [exceptFoldVisit_cons] at h
    cases hv : visit ps fuel d a with
    | error e =>
      rw [hv] at h
      exact absurd h (by simp)
    | ok a1 =>
      rw [hv] at h
      obtain ⟨r1, r2, r3, r4, r5, r6⟩ := hR d a a1 hv
      obtain ⟨q1, q2, q3, q4, q5, q6⟩ := ih a1 b h
      refine ⟨q1.trans r1, fun m hm => q2 m (r2 m hm), ?_, ?_, ?_, fun hInv => q6 (r6 hInv)⟩
      · intro x hx
        rcases List.mem_cons.mp hx with hx1 | hx1
        · exact hx1 ▸ q2 d r3
        · exact q3 x hx1
      · intro m hm
        rcases q4 m hm with hm1 | hm1
        · exact r4 m hm1
        · exact Or.inr ⟨fun hc => hm1.1 (r1 ▸ hc), hm1.2⟩
      · obtain ⟨l1, hl1⟩ := r5
        obtain ⟨l2, hl2⟩ := q5
        exact ⟨l1 ++ l2, by rw [hl2, hl1, List.append_assoc]⟩

theorem visit_ok_spec (ps : List PluginDecl) :
    ∀ (fuel : Nat) (name : String) (st st2 : ResolveSt),
      visit ps fuel name st = .ok st2 →
      (st2.visiting = st.visiting ∧
       (∀ m ∈ st.visited, m ∈ st2.visited) ∧
       name ∈ st2.visited ∧
       (∀ m ∈ st2.visited, m ∈ st.visited ∨ (m ∉ st.visiting ∧ m ∈ pluginNames ps)) ∧
       (∃ l, st2.order = st.order ++ l) ∧
       (StInv ps st → StInv ps st2)) := by
  intro fuel
  induction fuel using Nat.strong_induction_on with
  | _ fuel ihf =>
    intro name st st2 h
    cases fuel with
    | zero => exact absurd h (by simp [visit])
    | succ g =>
      rw [visit] at h
      by_cases h1 : name ∈ st.visiting
      · rw [if_pos h1] at h
        exact absurd h (by simp)
      · rw [if_neg h1] at h
        by_cases h2 : name ∈ st.visited
        · rw [if_pos h2] at h
          injection h with h3
          subst h3
          exact ⟨rfl, fun m hm => hm, h2, fun m hm => Or.inl hm, ⟨[], by simp⟩, id⟩
        · rw [if_neg h2] at h
          cases hlk : lookupPlugin ps name with
          | none =>
            rw [hlk] at h
            exact absurd h (by simp)
          | some p =>
            rw [hlk] at h
            dsimp only at h
            cases hfold : List.foldlM (fun acc d => visit ps g d acc)
                { st with visiting := name :: st.visiting } p.dependencies with
            | error e =>
              rw [hfold] at h
              exact absurd h (by simp)
            | ok stt =>
              rw [hfold] at h
              injection h with h3
              subst h3
              have hR := fun d a b hh => ihf g (Nat.lt_succ_self g) d a b hh
              obtain ⟨f1, f2, f3, f4, f5, f6⟩ :=
                foldVisit_rel ps g hR p.dependencies
                  { st with visiting := name :: st.visiting } stt hfold
              have hnames : name ∈ pluginNames ps :=
                mem_names_of_lookup_some ps name p hlk
              have hvis2 : stt.visiting.erase name = st.visiting := by
                rw [f1]
                exact List.erase_cons_head name st.visiting
              refine ⟨hvis2, ?_, ?_, ?_, ?_, ?_⟩
              · intro m hm
                exact List.mem_append_left _ (f2 m hm)
              · exact List.mem_append_right _ (List.mem_singleton.mpr rfl)
              · intro m hm
                rcases List.mem_append.mp hm with hm1 | hm1
                · rcases f4 m hm1 with hm2 | hm2
                  · exact Or.inl hm2
                  · exact Or.inr ⟨fun hc => hm2.1 (List.mem_cons_of_mem name hc), hm2.2⟩
                · have hmn : m = name := List.mem_singleton.mp hm1
                  exact Or.inr ⟨hmn ▸ h1, hmn ▸ hnames⟩
              · obtain ⟨l, hl⟩ := f5
                exact ⟨l ++ [name], by rw [hl, List.append_assoc]⟩
              · intro hInv
                obtain ⟨i1, i2, i3, i4, i5⟩ := hInv
                have hInvPush : StInv ps { st with visiting := name :: st.visiting } := by
                  refine ⟨i1, i2, ?_, i4, i5⟩
                  intro m hm
                  intro hc
                  rcases List.mem_cons.mp hc with hc1 | hc1
                  · exact h2 (hc1 ▸ hm)
                  · exact i3 m hm hc1
                obtain ⟨j1, j2, j3, j4, j5⟩ := f6 hInvPush
                have hname_not_order : name ∉ stt.order := by
                  intro hc
                  have hc2 : name ∈ stt.visited := by rw [j1]; exact hc
                  rcases f4 name hc2 with hc3 | hc3
                  · exact h2 hc3
                  · exact hc3.1 (List.mem_cons_self name st.visiting)
                refine ⟨by rw [j1], ?_, ?_, ?_, ?_⟩
                · simpa [List.nodup_append] using ⟨j2, hname_not_order⟩
                · intro m hm
                  rw [hvis2]
                  rcases List.mem_append.mp hm with hm1 | hm1
                  · have := j3 m hm1
                    rw [f1] at this
                    exact fun hc => this (List.mem_cons_of_mem name hc)
                  · exact (List.mem_singleton.mp hm1) ▸ h1
                · intro m hm
                  rcases List.mem_append.mp hm with hm1 | hm1
                  · exact j4 m hm1
                  · exact (List.mem_singleton.mp hm1) ▸ hnames
                · refine depsClosed_append_one ps stt.order name j5 ?_
                  intro p2 hp2 d hd
                  rw [hlk] at hp2
                  injection hp2 with hp2
                  rw [← j1]
                  exact f3 d (hp2 ▸ hd)

theorem foldVisit_total (ps : List PluginDecl) (rank : String → Nat) (fuel : Nat)
    (hvt : ∀ (name : String) (st : ResolveSt),
        st.visiting.Nodup → (∀ m ∈ st.visiting, m ∈ pluginNames ps) →
        ps.length + 1 ≤ fuel + st.visiting.length → name ∈ pluginNames ps →
        (∀ m ∈ st.visiting, rank name < rank m) →
        ∃ st2, visit ps fuel name st = .ok st2) :
    ∀ (ds : List String) (a : ResolveSt),
      a.visiting.Nodup → (∀ m ∈ a.visiting, m ∈ pluginNames ps) →
      ps.length + 1 ≤ fuel + a.visiting.length →
      (∀ d ∈ ds, d ∈ pluginNames ps) →
      (∀ d ∈ ds, ∀ m ∈ a.visiting, rank d < rank m) →
      ∃ b, List.foldlM (fun acc d => visit ps fuel d acc) a ds = .ok b := by
  intro ds
  induction ds with
  | nil =>
    intro a _ _ _ _ _
    exact ⟨a, exceptFoldVisit_nil ps fuel a⟩
  | cons d ds ih =>
    intro a hnd hsub hlen hdn hdr
    obtain ⟨a1, ha1⟩ := hvt d a hnd hsub hlen (hdn d (List.mem_cons_self d ds))
      (hdr d (List.mem_cons_self d ds))
    have hvis : a1.visiting = a.visiting := (visit_ok_spec ps fuel d a a1 ha1).1
    obtain ⟨b, hb⟩ := ih a1 (hvis ▸ hnd) (hvis ▸ hsub) (hvis ▸ hlen)
      (fun x hx => hdn x (List.mem_cons_of_mem d hx))
      (fun x hx => hvis ▸ hdr x (List.mem_cons_of_mem d hx))
    refine ⟨b, ?_⟩
    rw [exceptFoldVisit_cons, ha1]
    exact hb

theorem visit_total (ps : List PluginDecl) (rank : String → Nat)
    (hrd : ∀ p ∈ ps, ∀ d ∈ p.dependencies, d ∈ pluginNames ps)
    (hrk : ∀ p ∈ ps, ∀ d ∈ p.dependencies, rank d < rank p.name) :
    ∀ (fuel : Nat) (name : String) (st : ResolveSt),
      st.visiting.Nodup → (∀ m ∈ st.visiting, m ∈ pluginNames ps) →
      ps.length + 1 ≤ fuel + st.visiting.length → name ∈ pluginNames ps →
      (∀ m ∈ st.visiting, rank name < rank m) →
      ∃ st2, visit ps fuel name st = .ok st2 := by
  intro fuel
  induction fuel with
  | zero =>
    intro name st hnd hsub hlen _ _
    have hle : st.visiting.length ≤ ps.length := nodup_length_le_names ps st.visiting hnd hsub
    omega
  | succ g ih =>
    intro name st hnd hsub hlen hmem hrank
    have h1 : name ∉ st.visiting := fun hc => absurd (hrank name hc) (lt_irrefl _)
    by_cases h2 : name ∈ st.visited
    · refine ⟨st, ?_⟩
      rw [visit, if_neg h1, if_pos h2]
    · obtain ⟨p, hlk⟩ := lookupPlugin_isSome_of_mem ps name hmem
      obtain ⟨hpmem, hpname⟩ := lookupPlugin_eq_some ps name p hlk
      have hpushnd : (name :: st.visiting).Nodup := List.nodup_cons.mpr ⟨h1, hnd⟩
      have hpushsub : ∀ m ∈ name :: st.visiting, m ∈ pluginNames ps := by
        intro m hm
        rcases List.mem_cons.mp hm with hm1 | hm1
        · exact hm1 ▸ hmem
        · exact hsub m hm1
      have hpushlen : ps.length + 1 ≤ g + (name :: st.visiting).length := by
        simp only [List.length_cons]
        omega
      obtain ⟨b, hb⟩ := foldVisit_total ps rank g (ih) p.dependencies
        { st with visiting := name :: st.visiting } hpushnd hpushsub hpushlen
        (fun d hd => hrd p hpmem d hd)
        (by
          intro d hd m hm
          have hdlt : rank d < rank name := hpname ▸ hrk p hpmem d hd
          rcases List.mem_cons.mp hm with hm1 | hm1
          · exact hm1 ▸ hdlt
          · exact hdlt.trans (hrank m hm1))
      refine ⟨⟨b.visiting.erase name, b.visited ++ [name], b.order ++ [name]⟩, ?_⟩
      rw [visit, if_neg h1, if_neg h2, hlk]
      dsimp only
      rw [hb]

theorem resolveLoop_ok_spec (ps : List PluginDecl) (fuel : Nat) :
    ∀ (ns : List String) (st st2 : ResolveSt),
      resolveLoop ps fuel ns st = .ok st2 →
      (st2.visiting = st.visiting ∧ (∀ m ∈ st.visited, m ∈ st2.visited) ∧
       (∀ n ∈ ns, n ∈ st2.visited) ∧ (StInv ps st → StInv ps st2)) := by
  intro ns
  induction ns with
  | nil =>
    intro st st2 h
    rw [resolveLoop] at h
    injection h with h
    subst h
    exact ⟨rfl, fun m hm => hm, by simp, id⟩
  | cons n rest ih =>
    intro st st2 h
    rw [resolveLoop] at h
    by_cases h1 : n ∈ st.visited
    · rw [if_pos h1] at h
      obtain ⟨q1, q2, q3, q4⟩ := ih st st2 h
      exact ⟨q1, q2,
        fun x hx => (List.mem_cons.mp hx).elim (fun he => he ▸ q2 n h1) (q3 x), q4⟩
    · rw [if_neg h1] at h
      cases hv : visit ps fuel n st with
      | error e =>
        rw [hv] at h
        exact absurd h (by simp)
      | ok st1 =>
        rw [hv] at h
        obtain ⟨f1, f2, f3, _, _, f6⟩ := visit_ok_spec ps fuel n st st1 hv
        obtain ⟨q1, q2, q3, q4⟩ := ih st1 st2 h
        exact ⟨q1.trans f1, fun m hm => q2 m (f2 m hm),
          fun x hx => (List.mem_cons.mp hx).elim (fun he => he ▸ q2 n f3) (q3 x),
          fun hInv => q4 (f6 hInv)⟩

theorem resolveLoop_total (ps : List PluginDecl) (rank : String → Nat)
    (hrd : ∀ p ∈ ps, ∀ d ∈ p.dependencies, d ∈ pluginNames ps)
    (hrk : ∀ p ∈ ps, ∀ d ∈ p.dependencies, rank d < rank p.name) :
    ∀ (ns : List String) (st : ResolveSt),
      st.visiting = [] →
      (∀ n ∈ ns, n ∈ pluginNames ps) →
      ∃ st2, resolveLoop ps (ps.length + 1) ns st = .ok st2 := by
  intro ns
  induction ns with
  | nil =>
    intro st _ _
    exact ⟨st, by rw [resolveLoop]⟩
  | cons n rest ih =>
    intro st hvis hsub
    by_cases h1 : n ∈ st.visited
    · obtain ⟨st2, hst2⟩ := ih st hvis (fun x hx => hsub x (List.mem_cons_of_mem n hx))
      refine ⟨st2, ?_⟩
      rw [resolveLoop, if_pos h1]
      exact hst2
    · obtain ⟨st1, hst1⟩ := visit_total ps rank hrd hrk (ps.length + 1) n st
        (by rw [hvis]; exact List.nodup_nil)
        (by rw [hvis]; simp)
        (by rw [hvis]; simp)
        (hsub n (List.mem_cons_self n rest))
        (by rw [hvis]; simp)
      have hv1 : st1.visiting = [] := by
        have hq := (visit_ok_spec ps _ n st st1 hst1).1
        rw [hq, hvis]
      obtain ⟨st2, hst2⟩ := ih st1 hv1 (fun x hx => hsub x (List.mem_cons_of_mem n hx))
      refine ⟨st2, ?_⟩
      rw [resolveLoop, if_neg h1, hst1]
      exact hst2

theorem resolve_ok_props (ps : List PluginDecl) (order : List String)
    (h : resolveAndOrderPlugins ps = .ok order) :
    order.Nodup ∧ (∀ m ∈ order, m ∈ pluginNames ps) ∧
    (∀ n ∈ pluginNames ps, n ∈ order) ∧ DepsClosed ps order := by
  unfold resolveAndOrderPlugins at h
  cases hl : resolveLoop ps (ps.length + 1) (pluginNames ps) ⟨[], [], []⟩ with
  | error e =>
    rw [hl] at h
    exact absurd h (by simp)
  | ok st =>
    rw [hl] at h
    injection h with h
    subst h
    obtain ⟨_, _, q3, q4⟩ := resolveLoop_ok_spec ps _ (pluginNames ps) ⟨[], [], []⟩ st hl
    have hInv : StInv ps st := q4 ⟨rfl, List.nodup_nil, by simp, by simp,
      by intro i hi; exact absurd hi (by simp)⟩
    obtain ⟨i1, i2, _, i4, i5⟩ := hInv
    exact ⟨i2, i4, fun n hn => i1 ▸ q3 n hn, i5⟩

theorem lookupPlugin_none_of_not_mem (ps : List PluginDecl) (n : String)
    (h : n ∉ pluginNames ps) : lookupPlugin ps n = none := by
  cases hl : lookupPlugin ps n with
  | none => rfl
  | some p => exact absurd (mem_names_of_lookup_some ps n p hl) h

theorem initPlugins_ok_iff (ps : List PluginDecl) (order : List String) :
    initPlugins ps = .ok order ↔ resolveAndOrderPlugins ps = .ok order := by
  unfold initPlugins
  cases hr : resolveAndOrderPlugins ps with
  | error e => simp
  | ok o => simp

/-- **C6.** `resolveAndOrderPlugins` / `initializePlugins`
(`PluginManager.ts` lines 44-98). (i) For every plugin list with distinct
names whose every declared dependency names a registered plugin and whose
dependency relation is acyclic (witnessed by a rank function that strictly
decreases from a plugin to each of its dependencies), initialization
succeeds and produces a duplicate-free total order in which every plugin
appears strictly after all of its dependencies. (ii) A dependency name
with no registered plugin is fatal: initialization cannot succeed.
(iii) In the circular scenario X depends on Y and Y depends on X,
initialization fails with a circular-dependency error identifying X, so
no plugin's `onInit` hook runs. -/
theorem c6_dependency_resolution :
    (∀ (ps : List PluginDecl) (rank : String → Nat),
        (pluginNames ps).Nodup →
        (∀ p ∈ ps, ∀ d ∈ p.dependencies, d ∈ pluginNames ps) →
        (∀ p ∈ ps, ∀ d ∈ p.dependencies, rank d < rank p.name) →
        ∃ order, initPlugins ps = .ok order ∧ order.Nodup ∧
          ∀ p ∈ ps, ∃ pre post, order = pre ++ p.name :: post ∧
            ∀ d ∈ p.dependencies, d ∈ pre) ∧
    (∀ (ps : List PluginDecl) (p : PluginDecl) (d : String),
        (pluginNames ps).Nodup → p ∈ ps → d ∈ p.dependencies →
        d ∉ pluginNames ps → ∀ order, initPlugins ps ≠ .ok order) ∧
    (initPlugins [⟨"X", ["Y"]⟩, ⟨"Y", ["X"]⟩] = .error (.circular "X")) := by
  refine ⟨?_, ?_, by decide⟩
  · intro ps rank hnodup hrd hrk
    obtain ⟨st2, hst2⟩ := resolveLoop_total ps rank hrd hrk (pluginNames ps)
      ⟨[], [], []⟩ rfl (fun n hn => hn)
    have hok : resolveAndOrderPlugins ps = .ok st2.order := by
      unfold resolveAndOrderPlugins
      rw [hst2]
    obtain ⟨hnd, _, hcomp, hdc⟩ := resolve_ok_props ps st2.order hok
    refine ⟨st2.order, (initPlugins_ok_iff ps st2.order).mpr hok, hnd, ?_⟩
    intro p hp
    have hname : p.name ∈ st2.order :=
      hcomp p.name (List.mem_map_of_mem (fun q => q.name) hp)
    obtain ⟨⟨i, hi⟩, hget⟩ := List.mem_iff_get.mp hname
    refine ⟨st2.order.take i, st2.order.drop (i + 1), ?_, ?_⟩
    · rw [← hget]
      rw [show st2.order.get ⟨i, hi⟩ :: st2.order.drop (i + 1) = st2.order.drop i from
        List.getElem_cons_drop st2.order i hi]
      exact (List.take_append_drop i st2.order).symm
    · intro d hd
      refine hdc i hi p ?_ d hd
      rw [hget]
      exact lookupPlugin_self ps p hnodup hp
  · intro ps p d hnodup hp hd hdnot order hok
    have hok2 : resolveAndOrderPlugins ps = .ok order := (initPlugins_ok_iff ps order).mp hok
    obtain ⟨_, hmem, hcomp, hdc⟩ := resolve_ok_props ps order hok2
    have hname : p.name ∈ order :=
      hcomp p.name (List.mem_map_of_mem (fun q => q.name) hp)
    obtain ⟨⟨i, hi⟩, hget⟩ := List.mem_iff_get.mp hname
    have hdin : d ∈ order.take i := by
      refine hdc i hi p ?_ d hd
      rw [hget]
      exact lookupPlugin_self ps p hnodup hp
    exact hdnot (hmem d (List.take_subset i order hdin))

/-- Witness for C6: a two-plugin chain B depends on A resolves (with
rank A = 0, B = 1), and a plugin with an unregistered dependency W never
initializes. -/
theorem c6_dependency_resolution_witness :
    (∃ order, initPlugins [⟨"A", []⟩, ⟨"B", ["A"]⟩] = .ok order ∧ order.Nodup ∧
       ∀ p ∈ [(⟨"A", []⟩ : PluginDecl), ⟨"B", ["A"]⟩],
         ∃ pre post, order = pre ++ p.name :: post ∧
           ∀ d ∈ p.dependencies, d ∈ pre) ∧
    (∀ order, initPlugins [⟨"Z", ["W"]⟩] ≠ .ok order) := by
  constructor
  · exact c6_dependency_resolution.1 [⟨"A", []⟩, ⟨"B", ["A"]⟩]
      (fun n => if n = "B" then 1 else 0) (by decide) (by decide) (by decide)
  · exact fun order => c6_dependency_resolution.2.1 [⟨"Z", ["W"]⟩] ⟨"Z", ["W"]⟩ "W"
      (by decide) (by decide) (by decide) (by decide) order

end SG
